import Mathlib

/-!
# Numeric fingerprint ("safety number") derivation

A shallow embedding of `fingerprint/numeric_fingerprint.go` and the properties of its
pipeline: canonical key encoding (`getLogicalKeyBytes`), iterated hashing
(`repeatedHashing`), decimal chunk extraction (`getDisplayStringFor`) and the
two-party ordering (`createDisplayableFingerprint`); and of `setupCA` in `rootca.go`
(namespace `Textsecure`).

Conventions of the embedding.

* A Go `byte` is a `Fin 256`; a `[]byte` is a `List Byte`; a Go `string` is a `String`.
* A Go run-time panic is an `Except.error` carrying a `Panic`.
* `crypto/sha512` is outside the repository: the one-shot hash is the parameter
  `sha : List Byte → List Byte`, and the accumulator `hash.Hash` is modelled by the
  bytes written to it since the last reset.
* `axolotl.ECPublicKey` is outside the listed sources: the key type `Key` and its
  `Serialize` method are parameters.
-/

set_option linter.unusedVariables false

namespace Fingerprint

/-- A Go `byte`. -/
abbrev Byte := Fin 256

/-- The run-time panics the code can raise. -/
inductive Panic where
  /-- An index expression `s[i]` with `i` outside `0 ≤ i < len(s)`. -/
  | indexOutOfRange
  /-- A slice expression `s[a:]` with `a > len(s)`. -/
  | sliceBounds
  /-- The call `log.Panic` in the comparator of `sortByteArrays`. -/
  | logPanic
  deriving DecidableEq, Repr

deriving instance DecidableEq for Except

/-- The constant `ITERATIONS`. -/
def ITERATIONS : Int := 5200

/-- The constant `FINGERPRINT_VERSION`. -/
def FINGERPRINT_VERSION : Int := 0

/-! ## Library functions used by the code -/

/-- Go's `strings.Compare`: `0` if `a == b`, `-1` if `a < b`, `+1` otherwise; `a < b` is
the lexicographic comparison of the two character sequences. -/
def stringsCompare (a b : String) : Int :=
  if a = b then 0 else if a.data < b.data then -1 else 1

/-- Go's `bytes.Compare`: three-way lexicographic comparison of two byte slices. -/
def bytesCompare : List Byte → List Byte → Int
  | [], [] => 0
  | [], _ :: _ => -1
  | _ :: _, [] => 1
  | x :: xs, y :: ys => if x < y then -1 else if y < x then 1 else bytesCompare xs ys

/-- Go's `fmt.Sprintf("%05d", n)` for an unsigned `n`: the decimal digits of `n`,
padded on the left with `'0'` up to width five. -/
def sprintf05d (n : Nat) : String :=
  let ds := Nat.toDigits 10 n
  String.mk (List.replicate (5 - ds.length) '0' ++ ds)

/-- Go's `binary.Write(buf, binary.BigEndian, v)` for an `int16` value `v`: the two
bytes of `v` (as an unsigned 16-bit number), most significant first. -/
def binaryWriteBigEndianInt16 (v : Int) : List Byte :=
  let u : Nat := (v % 65536).toNat
  [Fin.ofNat (u / 256), Fin.ofNat u]

/-- The accumulator `hash.Hash` returned by `sha512.New()`, represented by the bytes
written to it since it was created or last reset. -/
structure Hash where
  /-- The bytes fed to the accumulator so far. -/
  written : List Byte
  deriving DecidableEq, Repr

/-- Go's `sha512.New()`: a fresh accumulator. -/
def sha512New : Hash := ⟨[]⟩

/-- Go's `Hash.Write(p)`: feed `p` to the accumulator. -/
def Hash.Write (d : Hash) (p : List Byte) : Hash := ⟨d.written ++ p⟩

/-- Go's `Hash.Sum(b)`: `b` followed by the hash of everything written so far; the
accumulator is left unchanged. -/
def Hash.Sum (sha : List Byte → List Byte) (d : Hash) (b : List Byte) : List Byte :=
  b ++ sha d.written

/-- Go's `Hash.Reset()`: forget everything written. -/
def Hash.Reset (_d : Hash) : Hash := ⟨[]⟩

/-! ## `sortByteArrays` and `sort.Sort` -/

section Keys

variable {Key : Type}

/-- The method `sortByteArrays.Len`. -/
def sortByteArrays.Len (b : List Key) : Nat := b.length

/-- The method `sortByteArrays.Less`: a `switch` on `bytes.Compare` of the two
serializations, whose `default` branch calls `log.Panic`. -/
def sortByteArrays.Less (Serialize : Key → List Byte) (b : List Key) (i j : Nat) :
    Except Panic Bool :=
  match b[i]? with
  | none => .error .indexOutOfRange
  | some bi =>
    match b[j]? with
    | none => .error .indexOutOfRange
    | some bj =>
      let c := bytesCompare (Serialize bi) (Serialize bj)
      if c = -1 then .ok true
      else if c = 0 ∨ c = 1 then .ok false
      else .error .logPanic

/-- The method `sortByteArrays.Swap`: `b[j], b[i] = b[i], b[j]`. -/
def sortByteArrays.Swap (b : List Key) (i j : Nat) : Except Panic (List Key) :=
  match b[i]? with
  | none => .error .indexOutOfRange
  | some bi =>
    match b[j]? with
    | none => .error .indexOutOfRange
    | some bj => .ok ((b.set j bi).set i bj)

/-- The inner loop of Go's insertion sort, started at `j`:
`for ; j > 0 && data.Less(j, j-1); j-- { data.Swap(j, j-1) }`. -/
def insertionSortInner (Serialize : Key → List Byte) :
    Nat → List Key → Except Panic (List Key)
  | 0, b => .ok b
  | j + 1, b => do
    if (← sortByteArrays.Less Serialize b (j + 1) j) then
      let b ← sortByteArrays.Swap b (j + 1) j
      insertionSortInner Serialize j b
    else
      pure b

/-- The outer loop of Go's insertion sort, `for i := ...; i < n; i++ { inner loop at i }`,
with `remaining = n - i` iterations left. -/
def insertionSortOuter (Serialize : Key → List Byte) :
    Nat → Nat → List Key → Except Panic (List Key)
  | 0, _, b => .ok b
  | remaining + 1, i, b => do
    let b ← insertionSortInner Serialize i b
    insertionSortOuter Serialize remaining (i + 1) b

/-- Go's `sort.Sort(data)` on a `sortByteArrays`, driven only by `Len`, `Less` and
`Swap`: the insertion sort `for i := 1; i < n; i++ { ... }` that package `sort` runs on
short slices. The result is the new content of the slice, which is sorted in place. -/
def sortSort (Serialize : Key → List Byte) (b : List Key) : Except Panic (List Key) :=
  insertionSortOuter Serialize (sortByteArrays.Len b - 1) 1 b

/-- The function `SortByteArrays`. -/
def SortByteArrays (Serialize : Key → List Byte) (src : List Key) :
    Except Panic (List Key) :=
  sortSort Serialize src

/-- The loop `for k := range sorted { output = append(output, sorted[k].Serialize()...) }`. -/
def appendSerialized (Serialize : Key → List Byte) : List Byte → List Key → List Byte
  | output, [] => output
  | output, k :: rest => appendSerialized Serialize (output ++ Serialize k) rest

/-- The function `getLogicalKeyBytes`: sort the keys, then concatenate their
serializations. -/
def getLogicalKeyBytes (Serialize : Key → List Byte) (identityKeys : List Key) :
    Except Panic (List Byte) := do
  let sorted ← sortSort Serialize identityKeys
  pure (appendSerialized Serialize [] sorted)

/-- The content of the caller's slice after `getLogicalKeyBytes` has run:
`sortByteArrays(identityKeys)` is a conversion, not a copy, so `sort.Sort` permutes the
caller's backing array. -/
def getLogicalKeyBytes_keysAfter (Serialize : Key → List Byte) (identityKeys : List Key) :
    Except Panic (List Key) :=
  sortSort Serialize identityKeys

end Keys

/-! ## Iterated hashing -/

/-- The function `javaLikeUpdate`. -/
def javaLikeUpdate (digest : Hash) (data : List Byte) : Hash :=
  digest.Write data

/-- The function `javaLikeDigest`: write, sum, reset; returns the accumulator after the
reset together with the sum. -/
def javaLikeDigest (sha : List Byte → List Byte) (digest : Hash) (data : List Byte) :
    Hash × List Byte :=
  let digest := digest.Write data
  let result := digest.Sum sha []
  let digest := digest.Reset
  (digest, result)

/-- One pass through the body of the loop in `repeatedHashing`, on the pair
(accumulator, running hash). -/
def repeatedHashingRound (sha : List Byte → List Byte) (key : List Byte)
    (st : Hash × List Byte) : Hash × List Byte :=
  let digest := javaLikeUpdate st.1 st.2
  javaLikeDigest sha digest key

/-- The loop `for i := 0; i < iterations; i++` of `repeatedHashing`, with `rounds`
passes left to run. -/
def repeatedHashingLoop (sha : List Byte → List Byte) (key : List Byte) :
    Nat → Hash × List Byte → Hash × List Byte
  | 0, st => st
  | rounds + 1, st => repeatedHashingLoop sha key rounds (repeatedHashingRound sha key st)

/-- The function `repeatedHashing`. -/
def repeatedHashing (sha : List Byte → List Byte) (startData key : List Byte)
    (iterations : Int) : List Byte :=
  (repeatedHashingLoop sha key iterations.toNat (sha512New, startData)).2

/-- The function `getFingerprint`. -/
def getFingerprint {Key : Type} (sha : List Byte → List Byte)
    (Serialize : Key → List Byte) (iterations : Int) (stableIdentifier : List Byte)
    (identityKeys : List Key) : Except Panic (List Byte) := do
  let publicKey ← getLogicalKeyBytes Serialize identityKeys
  let version := binaryWriteBigEndianInt16 FINGERPRINT_VERSION
  let startData := version ++ publicKey
  let startData := startData ++ stableIdentifier
  pure (repeatedHashing sha startData publicKey iterations)

/-! ## Chunk encoding -/

/-- The index expression `bytes[i]`. -/
def index (bytes : List Byte) (i : Nat) : Except Panic Byte :=
  match bytes[i]? with
  | some b => .ok b
  | none => .error .indexOutOfRange

/-- The function `byteArray5ToLong`, on `uint64` values. -/
def byteArray5ToLong (bytes : List Byte) (offset : Nat) : Except Panic Nat := do
  let b0 ← index bytes offset
  let b1 ← index bytes (offset + 1)
  let b2 ← index bytes (offset + 2)
  let b3 ← index bytes (offset + 3)
  let b4 ← index bytes (offset + 4)
  let a := (((b0 &&& 0xff).val <<< 32) % 2 ^ 64) |||
    (((b1 &&& 0xff).val <<< 24) % 2 ^ 64) |||
    (((b2 &&& 0xff).val <<< 16) % 2 ^ 64) |||
    (((b3 &&& 0xff).val <<< 8) % 2 ^ 64) |||
    (b4 &&& 0xff).val
  pure a

/-- The function `getEncodedChunk`. -/
def getEncodedChunk (hash : List Byte) (offset : Nat) : Except Panic String := do
  let chunk := (← byteArray5ToLong hash offset) % 100000
  pure (sprintf05d chunk)

/-- The function `getDisplayStringFor`. -/
def getDisplayStringFor (fingerprint : List Byte) : Except Panic (List String) := do
  let c0 ← getEncodedChunk fingerprint 0
  let c1 ← getEncodedChunk fingerprint 5
  let c2 ← getEncodedChunk fingerprint 10
  let c3 ← getEncodedChunk fingerprint 15
  let c4 ← getEncodedChunk fingerprint 20
  let c5 ← getEncodedChunk fingerprint 25
  pure [c0, c1, c2, c3, c4, c5]

/-! ## Ordering of the two parties -/

/-- The function `compareFingerprintBlocks`. The inner `result := strings.Compare(...)`
declares a new variable; the final `return result` returns the outer one. -/
def compareFingerprintBlocks (localBlocks remoteBlocks : List String) : Except Panic Int :=
  let result : Int := (localBlocks.length : Int) - (remoteBlocks.length : Int)
  if result = 0 then
    match localBlocks, remoteBlocks with
    | l0 :: ltail, r0 :: rtail =>
      let result' := stringsCompare l0 r0
      if result' = 0 ∧ 0 < (l0 :: ltail).length then
        compareFingerprintBlocks ltail rtail
      else
        .ok result
    | _, _ => .error .indexOutOfRange
  else
    .ok result

/-- The function `createDisplayableFingerprint`. -/
def createDisplayableFingerprint (localFingerprint remoteFingerprint : List Byte) :
    Except Panic (List String) := do
  let «local» ← getDisplayStringFor localFingerprint
  let remote ← getDisplayStringFor remoteFingerprint
  if (← compareFingerprintBlocks «local» remote) ≤ 0 then
    pure («local» ++ remote)
  else
    pure (remote ++ «local»)

/-- The function `CreateFingerprint`. -/
def CreateFingerprint {Key : Type} (sha : List Byte → List Byte)
    (Serialize : Key → List Byte) (version : Int)
    (localStableIdentifier : List Byte) (localIdentityKeys : List Key)
    (remoteStableIdentifier : List Byte) (remoteIdentityKeys : List Key) :
    Except Panic (List String) := do
  let lFingerprint ← getFingerprint sha Serialize ITERATIONS localStableIdentifier
    localIdentityKeys
  let rFingerprint ← getFingerprint sha Serialize ITERATIONS remoteStableIdentifier
    remoteIdentityKeys
  let displayableFingerprint ← createDisplayableFingerprint lFingerprint rFingerprint
  pure displayableFingerprint

/-- The slice expression `s[1:]`. -/
def sliceFrom1 (s : List Byte) : Except Panic (List Byte) :=
  match s with
  | [] => .error .sliceBounds
  | _ :: rest => .ok rest

/-- The function `CreateFingerprintSimple`; `NewECPublicKey` is the constructor of the
key type and `stringBytes` the conversion `[]byte(s)`. -/
def CreateFingerprintSimple {Key : Type} (sha : List Byte → List Byte)
    (Serialize : Key → List Byte) (NewECPublicKey : List Byte → Key)
    (stringBytes : String → List Byte) (version : Int)
    («local» : String) (localKey : List Byte) (remote : String) (remoteKey : List Byte) :
    Except Panic (List String) := do
  let localStableIdentifier := stringBytes «local»
  let localECKey := NewECPublicKey (← sliceFrom1 localKey)
  let localECKeys := [localECKey]
  let remoteStableIdentifier := stringBytes remote
  let remoteECKey := NewECPublicKey (← sliceFrom1 remoteKey)
  let remoteECKeys := [remoteECKey]
  CreateFingerprint sha Serialize version localStableIdentifier localECKeys
    remoteStableIdentifier remoteECKeys

/-- The number of times `compareFingerprintBlocks` is entered when it is called on the two
sequences: the same control flow as `compareFingerprintBlocks`, counting one for the
call itself and adding the count of the recursive call where one is made. -/
def compareFingerprintBlocksCalls (localBlocks remoteBlocks : List String) : Nat :=
  let result : Int := (localBlocks.length : Int) - (remoteBlocks.length : Int)
  if result = 0 then
    match localBlocks, remoteBlocks with
    | l0 :: ltail, r0 :: rtail =>
      let result' := stringsCompare l0 r0
      if result' = 0 ∧ 0 < (l0 :: ltail).length then
        1 + compareFingerprintBlocksCalls ltail rtail
      else
        1
    | _, _ => 1
  else
    1

/-! ## The caller's key storage -/

/-- A slice of keys handed to the code: the window of `len` elements that starts at
position `off` of the caller's key storage. The storage is one list holding every
backing array; slices of different arrays are windows that do not overlap. -/
structure KeySlice where
  /-- The position of the first element of the slice. -/
  off : Nat
  /-- The length of the slice. -/
  len : Nat
  deriving DecidableEq, Repr

/-- The elements of the slice `s` in the storage `mem`. -/
def KeySlice.read {Key : Type} (s : KeySlice) (mem : List Key) : List Key :=
  (mem.drop s.off).take s.len

/-- The storage `mem` with the elements of the slice `s` replaced by `content`. -/
def KeySlice.write {Key : Type} (s : KeySlice) (mem : List Key) (content : List Key) :
    List Key :=
  mem.take s.off ++ content ++ mem.drop (s.off + s.len)

/-- The caller's key storage after `getLogicalKeyBytes` has run on the slice `s`:
`sortByteArrays(identityKeys)` is a conversion, not a copy, so `sort.Sort` permutes the
elements of `s` where they are stored. -/
def getLogicalKeyBytes_memAfter {Key : Type} (Serialize : Key → List Byte)
    (s : KeySlice) (mem : List Key) : Except Panic (List Key) := do
  let sorted ← sortSort Serialize (s.read mem)
  pure (s.write mem sorted)

/-- The caller's key storage once `CreateFingerprint` has made its two calls of
`getFingerprint`: the first sorts the local slice where it is stored, the second then
sorts the remote slice of the storage as the first call left it. -/
def CreateFingerprint_memAfter {Key : Type} (Serialize : Key → List Byte)
    (localIdentityKeys remoteIdentityKeys : KeySlice) (mem : List Key) :
    Except Panic (List Key) := do
  let mem ← getLogicalKeyBytes_memAfter Serialize localIdentityKeys mem
  let mem ← getLogicalKeyBytes_memAfter Serialize remoteIdentityKeys mem
  pure mem

/-! ## Counting the calls on the hash accumulator -/

/-- A computation that may panic, together with the number of calls it has made on the
hash package (`sha512.New`, `Write`, `Sum`, `Reset`) by the time it returns or panics. -/
structure Traced (α : Type) where
  /-- The number of calls made on the hash package. -/
  hashCalls : Nat
  /-- The value returned, or the panic. -/
  outcome : Except Panic α

/-- A step that returns `a` without touching the hash package. -/
def Traced.pure {α : Type} (a : α) : Traced α := ⟨0, .ok a⟩

/-- Sequencing: when the first step panics nothing further runs; otherwise the calls of
the continuation are added to those of the first step. -/
def Traced.bind {α β : Type} (x : Traced α) (f : α → Traced β) : Traced β :=
  match x.outcome with
  | .error e => ⟨x.hashCalls, .error e⟩
  | .ok a => ⟨x.hashCalls + (f a).hashCalls, (f a).outcome⟩

instance : Monad Traced where
  pure := Traced.pure
  bind := Traced.bind

/-- A step that makes no call on the hash package and may panic. -/
def Traced.ofExcept {α : Type} (e : Except Panic α) : Traced α := ⟨0, e⟩

/-- One call on the hash package, with result `a`. -/
def Traced.hashCall {α : Type} (a : α) : Traced α := ⟨1, .ok a⟩

/-- The function `javaLikeUpdate`, with its call of `Write` counted. -/
def javaLikeUpdateT (digest : Hash) (data : List Byte) : Traced Hash :=
  Traced.hashCall (digest.Write data)

/-- The function `javaLikeDigest`, with its calls of `Write`, `Sum` and `Reset` counted. -/
def javaLikeDigestT (sha : List Byte → List Byte) (digest : Hash) (data : List Byte) :
    Traced (Hash × List Byte) := do
  let digest ← Traced.hashCall (digest.Write data)
  let result ← Traced.hashCall (digest.Sum sha [])
  let digest ← Traced.hashCall digest.Reset
  pure (digest, result)

/-- The loop of `repeatedHashing` with `rounds` passes left to run, calls counted. -/
def repeatedHashingLoopT (sha : List Byte → List Byte) (key : List Byte) :
    Nat → Hash × List Byte → Traced (Hash × List Byte)
  | 0, st => pure st
  | rounds + 1, st => do
    let digest ← javaLikeUpdateT st.1 st.2
    let st ← javaLikeDigestT sha digest key
    repeatedHashingLoopT sha key rounds st

/-- The function `repeatedHashing`, calls counted (the first is `sha512.New()`). -/
def repeatedHashingT (sha : List Byte → List Byte) (startData key : List Byte)
    (iterations : Int) : Traced (List Byte) := do
  let digest ← Traced.hashCall sha512New
  let st ← repeatedHashingLoopT sha key iterations.toNat (digest, startData)
  pure st.2

/-- The function `getFingerprint`, calls counted. -/
def getFingerprintT {Key : Type} (sha : List Byte → List Byte)
    (Serialize : Key → List Byte) (iterations : Int) (stableIdentifier : List Byte)
    (identityKeys : List Key) : Traced (List Byte) := do
  let publicKey ← Traced.ofExcept (getLogicalKeyBytes Serialize identityKeys)
  let version := binaryWriteBigEndianInt16 FINGERPRINT_VERSION
  let startData := version ++ publicKey
  let startData := startData ++ stableIdentifier
  repeatedHashingT sha startData publicKey iterations

/-- The function `CreateFingerprint`, calls counted. -/
def CreateFingerprintT {Key : Type} (sha : List Byte → List Byte)
    (Serialize : Key → List Byte) (version : Int)
    (localStableIdentifier : List Byte) (localIdentityKeys : List Key)
    (remoteStableIdentifier : List Byte) (remoteIdentityKeys : List Key) :
    Traced (List String) := do
  let lFingerprint ← getFingerprintT sha Serialize ITERATIONS localStableIdentifier
    localIdentityKeys
  let rFingerprint ← getFingerprintT sha Serialize ITERATIONS remoteStableIdentifier
    remoteIdentityKeys
  let displayableFingerprint ←
    Traced.ofExcept (createDisplayableFingerprint lFingerprint rFingerprint)
  pure displayableFingerprint

/-- The function `CreateFingerprintSimple`, calls counted. -/
def CreateFingerprintSimpleT {Key : Type} (sha : List Byte → List Byte)
    (Serialize : Key → List Byte) (NewECPublicKey : List Byte → Key)
    (stringBytes : String → List Byte) (version : Int)
    («local» : String) (localKey : List Byte) (remote : String) (remoteKey : List Byte) :
    Traced (List String) := do
  let localStableIdentifier := stringBytes «local»
  let localECKey := NewECPublicKey (← Traced.ofExcept (sliceFrom1 localKey))
  let localECKeys := [localECKey]
  let remoteStableIdentifier := stringBytes remote
  let remoteECKey := NewECPublicKey (← Traced.ofExcept (sliceFrom1 remoteKey))
  let remoteECKeys := [remoteECKey]
  CreateFingerprintT sha Serialize version localStableIdentifier localECKeys
    remoteStableIdentifier remoteECKeys

/-! ## Notions used to state the properties -/

/-- The zero-padded decimal numeral of exactly five digits that represents `n`
(read modulo `10 ^ 5`): ten-thousands digit first, units digit last. -/
def fiveDigitString (n : Nat) : String :=
  String.mk [Nat.digitChar (n / 10000 % 10), Nat.digitChar (n / 1000 % 10),
    Nat.digitChar (n / 100 % 10), Nat.digitChar (n / 10 % 10), Nat.digitChar (n % 10)]

/-- A string of exactly five characters, each a decimal digit. -/
def IsFiveDigits (s : String) : Prop :=
  s.data.length = 5 ∧ ∀ c ∈ s.data, c.isDigit = true

/-- The five bytes of `digest` that start at `offset`, read as an unsigned 40-bit
big-endian integer. -/
def bigEndian40 (digest : List Byte) (offset : Nat) : Nat :=
  (digest.getD offset 0).val * 2 ^ 32 + (digest.getD (offset + 1) 0).val * 2 ^ 24 +
    (digest.getD (offset + 2) 0).val * 2 ^ 16 + (digest.getD (offset + 3) 0).val * 2 ^ 8 +
    (digest.getD (offset + 4) 0).val

/-- The pure round function of the iterated hash: `h ↦ SHA512(h ++ k)`. -/
def hashRound (sha : List Byte → List Byte) (k : List Byte) (h : List Byte) : List Byte :=
  sha (h ++ k)

/-- Strict lexicographic order on byte sequences, bytes compared as unsigned numbers. -/
def lexLt (a b : List Byte) : Prop := List.Lex (· < ·) a b

/-- Non-strict lexicographic order on byte sequences: `a` is not after `b`. -/
def lexLe (a b : List Byte) : Prop := ¬ lexLt b a

/-! ## Auxiliary functions used in the proofs -/

section Aux

variable {Key : Type}

/-- The comparison made by `Less` on two keys: is the first serialization strictly
smaller? -/
def lessKey (Serialize : Key → List Byte) (x y : Key) : Bool :=
  decide (bytesCompare (Serialize x) (Serialize y) = -1)

/-- What the inner loop of the insertion sort does to the already sorted part, kept
here last element first: `x` moves past every element it is strictly smaller than. -/
def insertRev (Serialize : Key → List Byte) (x : Key) : List Key → List Key
  | [] => [x]
  | y :: t => if lessKey Serialize x y then y :: insertRev Serialize x t else x :: y :: t

/-- The keys in the order in which the insertion sort leaves them. -/
def sortedKeys (Serialize : Key → List Byte) (b : List Key) : List Key :=
  (b.foldl (fun t x => insertRev Serialize x t) []).reverse

/-- The six chunks of a digest, as `getDisplayStringFor` computes them. -/
def chunksOf (digest : List Byte) : List String :=
  [fiveDigitString (bigEndian40 digest 0 % 100000),
    fiveDigitString (bigEndian40 digest 5 % 100000),
    fiveDigitString (bigEndian40 digest 10 % 100000),
    fiveDigitString (bigEndian40 digest 15 % 100000),
    fiveDigitString (bigEndian40 digest 20 % 100000),
    fiveDigitString (bigEndian40 digest 25 % 100000)]

/-- The canonical key blob: the serializations in sorted order, concatenated. -/
def keyBlob (Serialize : Key → List Byte) (keys : List Key) : List Byte :=
  ((sortedKeys Serialize keys).map Serialize).flatten

/-- The digest of one party: the seed `0x00 0x00 ++ blob ++ id` hashed `ITERATIONS` times. -/
def partyDigest (sha : List Byte → List Byte) (Serialize : Key → List Byte)
    (stableIdentifier : List Byte) (keys : List Key) : List Byte :=
  repeatedHashing sha ([0, 0] ++ keyBlob Serialize keys ++ stableIdentifier)
    (keyBlob Serialize keys) ITERATIONS

end Aux

/-! ## Concrete data used to instantiate the theorems -/

/-- A serialization in the shape of a Curve25519 public key: a type byte `0x05` followed
by the key bytes. The key is given by its bytes. -/
def exampleSerialize (k : List Byte) : List Byte := 5 :: k

/-- A stand-in for the hash function with a 64-byte output: 64 copies of the last byte
of the input. -/
def exampleHash (x : List Byte) : List Byte := List.replicate 64 (x.getLastD 0)

/-- A 64-byte digest: the value `getFingerprint` has under SHA-512, after 5200 rounds, for
the stable identifier `alice` and one key serialized as `0x05` followed by 32 bytes
`0x01`. Its first chunk is `58255`. -/
def digestA : List Byte :=
  [101, 89, 189, 11, 15, 50, 63, 24, 82, 151, 33, 93, 249, 232, 109, 40, 156, 160, 222, 150,
    25, 222, 129, 69, 135, 143, 129, 177, 206, 99, 14, 94, 76, 191, 255, 176, 123, 150, 163,
    169, 249, 144, 200, 130, 111, 137, 132, 45, 46, 62, 76, 49, 49, 153, 91, 33, 163, 6, 202,
    203, 172, 92, 202, 236]

/-- A 64-byte digest: the value `getFingerprint` has under SHA-512, after 5200 rounds, for
the stable identifier `bob` and one key serialized as `0x05` followed by 32 bytes `0x02`.
Its first chunk is `83138`. -/
def digestB : List Byte :=
  [162, 78, 13, 24, 226, 47, 188, 154, 244, 187, 106, 224, 84, 87, 121, 103, 165, 93, 61,
    176, 112, 115, 139, 46, 57, 191, 156, 200, 148, 86, 45, 189, 177, 250, 235, 235, 86, 42,
    158, 104, 140, 198, 158, 218, 196, 148, 50, 33, 114, 242, 47, 195, 118, 121, 86, 189,
    195, 97, 149, 148, 197, 55, 129, 169]

/-- A key constructor for keys given by their bytes: the key is the byte sequence. -/
def exampleNewKey (b : List Byte) : List Byte := b

/-- A conversion `[]byte(s)` for strings of single-byte characters: the code of each
character. -/
def exampleStringBytes (s : String) : List Byte := s.data.map (fun c => Fin.ofNat c.toNat)

end Fingerprint

/-! ## The certificate bootstrap, `rootca.go` -/

namespace Textsecure

/-- The variable `rootPEM`: the embedded default certificate, in PEM. -/
def rootPEM : String :=
  "\n" ++
  "-----BEGIN CERTIFICATE-----\n" ++
  "MIID4zCCAsugAwIBAgICEBgwDQYJKoZIhvcNAQELBQAwgY0xCzAJBgNVBAYTAlVT\n" ++
  "MRMwEQYDVQQIDApDYWxpZm9ybmlhMRYwFAYDVQQHDA1TYW4gRnJhbmNpc2NvMR0w\n" ++
  "GwYDVQQKDBRPcGVuIFdoaXNwZXIgU3lzdGVtczEdMBsGA1UECwwUT3BlbiBXaGlz\n" ++
  "cGVyIFN5c3RlbXMxEzARBgNVBAMMClRleHRTZWN1cmUwHhcNMTkwMjE1MTczODE3\n" ++
  "WhcNMjkwMzEyMTgyMDIwWjCBkDELMAkGA1UEBhMCVVMxEzARBgNVBAgMCkNhbGlm\n" ++
  "b3JuaWExHTAbBgNVBAoMFE9wZW4gV2hpc3BlciBTeXN0ZW1zMR0wGwYDVQQLDBRP\n" ++
  "cGVuIFdoaXNwZXIgU3lzdGVtczEuMCwGA1UEAwwldGV4dHNlY3VyZS1zZXJ2aWNl\n" ++
  "LndoaXNwZXJzeXN0ZW1zLm9yZzCCASIwDQYJKoZIhvcNAQEBBQADggEPADCCAQoC\n" ++
  "ggEBAKzIEbXRRbfAosvPk4magHWzsHhwOzu7On7EA4xxqViHbN4ox4jl5Lh9mu6n\n" ++
  "VW0eBvxc9zQKPG0ijgQJN/SV53jFwjqqtr4JYTsHzKs6bgHlYH6sW3XHxePj5JFK\n" ++
  "SSXWY7lKNASVl5KkSmhaiYItEPExvSoPB9bNwupixZ5Ae0iIE/NYQA6yZXpQTY0d\n" ++
  "BU0l1q0pQeXzLXqgJetThzSXr6j5soNO2KyRoMBNbI42fPUYvWRCOUfyUNI2fb3q\n" ++
  "suZD+QQ7YKxl5hgDBU8oNCNN80sNWjhh5nFEOWGj5lxl1qYTkp3sWJJGYD6cuQDJ\n" ++
  "1DrSKNbDUWnslIe+wvZfTx9+km0CAwEAAaNIMEYwRAYDVR0RBD0wO4IldGV4dHNl\n" ++
  "Y3VyZS1zZXJ2aWNlLndoaXNwZXJzeXN0ZW1zLm9yZ4ISc2VydmljZS5zaWduYWwu\n" ++
  "b3JnMA0GCSqGSIb3DQEBCwUAA4IBAQApay5HvPcMP+HE2vS3WOxL/ygG1o/q4zcO\n" ++
  "/VYOfA7q2yiFN2FDF8lEcwEqcDMAz2+hGK/fXi2gaIYq6fp3fL9OtzIrXmUNCB2I\n" ++
  "9PpuI4jj6xUtERecOXSaHE2C3TI3t7CIcvhbGU1OrJiDLbVFHE8RAetsJJyd2YWu\n" ++
  "zBwd9U3oWS4ZNzjlwQLTOiJpoApSKmMlQ6OVfgdr6rRTI1ocw+q4/wDxcYEhiLoM\n" ++
  "ljy42A/WrwXzyUMDkcAtZHTjkUAuSLivn434nLcYXalMUIW8sQNLksKTqVH26MKS\n" ++
  "2t2HRVs4cwDfmtGzmWSLbgRBl/8Oquq5XLLNEUIM31NVcBUFpKhJ\n" ++
  "-----END CERTIFICATE-----\n"

/-- An `*x509.CertPool`, represented by the certificates it holds. -/
structure CertPool (Cert : Type) where
  /-- The certificates in the pool. -/
  certs : List Cert
  deriving DecidableEq, Repr

/-- Go's `x509.NewCertPool()`: a new, empty pool. -/
def NewCertPool {Cert : Type} : CertPool Cert := ⟨[]⟩

/-- Go's `(*CertPool).AppendCertsFromPEM(pem)`: the certificates found in `pem` are added
to the pool; the result reports whether any certificate was parsed. The parser is the
parameter `certsFromPEM`. -/
def CertPool.AppendCertsFromPEM {Cert : Type} (certsFromPEM : List (Fin 256) → List Cert)
    (pool : CertPool Cert) (pem : List (Fin 256)) : CertPool Cert × Bool :=
  (⟨pool.certs ++ certsFromPEM pem⟩, !(certsFromPEM pem).isEmpty)

/-- What `setupCA` writes to the log. -/
inductive LogEntry (Err : Type) where
  /-- The call `log.Error(err)` after a failed read. -/
  | readError (err : Err)
  /-- The call `log.Error("Cannot load PEM")`. -/
  | cannotLoadPEM
  deriving DecidableEq, Repr

/-- The state `setupCA` acts on: the global `rootCA` (a pointer, `none` when nil) and the
log. -/
structure State (Cert Err : Type) where
  /-- The global variable `rootCA`. -/
  rootCA : Option (CertPool Cert)
  /-- The entries logged so far. -/
  log : List (LogEntry Err)
  deriving DecidableEq, Repr

/-- The last two statements of `setupCA`: `rootCA = x509.NewCertPool()` followed by
`if !rootCA.AppendCertsFromPEM(pem) { log.Error("Cannot load PEM") }`. -/
def setupCA_load {Cert Err : Type} (certsFromPEM : List (Fin 256) → List Cert)
    (pem : List (Fin 256)) (st : State Cert Err) : State Cert Err :=
  let st : State Cert Err := { st with rootCA := some NewCertPool }
  let appended := CertPool.AppendCertsFromPEM certsFromPEM NewCertPool pem
  let st : State Cert Err := { st with rootCA := some appended.1 }
  if !appended.2 then { st with log := st.log ++ [LogEntry.cannotLoadPEM] } else st

/-- The function `setupCA`. The configuration value `config.RootCA`, the helper `exists`
(here `pathExists`), `ioutil.ReadFile`, the PEM parser and the conversion `[]byte(s)`
are parameters. -/
def setupCA {Cert Err : Type} (stringBytes : String → List (Fin 256))
    (configRootCA : String) (pathExists : String → Bool)
    (ReadFile : String → Except Err (List (Fin 256)))
    (certsFromPEM : List (Fin 256) → List Cert) (st : State Cert Err) : State Cert Err :=
  let pem := stringBytes rootPEM
  if configRootCA ≠ "" ∧ pathExists configRootCA = true then
    match ReadFile configRootCA with
    | .error err => { st with log := st.log ++ [LogEntry.readError err] }
    | .ok b => setupCA_load certsFromPEM b st
  else
    setupCA_load certsFromPEM pem st

/-- A state in which `rootCA` holds one certificate, numbered 7, and nothing is logged. -/
def exampleState : State Nat Nat := { rootCA := some ⟨[7]⟩, log := [] }

/-- A file system in which every path exists. -/
def examplePathExists (_path : String) : Bool := true

/-- A read that fails with error number 2. -/
def exampleReadFails (_path : String) : Except Nat (List (Fin 256)) := .error 2

/-- A read that returns the one byte `0x01`. -/
def exampleReadOk (_path : String) : Except Nat (List (Fin 256)) := .ok [1]

/-- A PEM parser that finds no certificate. -/
def exampleNoCerts (_pem : List (Fin 256)) : List Nat := []

/-- A PEM parser that finds one certificate (numbered by the length of the data) in any
data of more than one byte, and none in shorter data. -/
def exampleCertsFromPEM (pem : List (Fin 256)) : List Nat :=
  if 1 < pem.length then [pem.length] else []

end Textsecure

namespace Fingerprint

/-! ## Library functions: basic facts -/

theorem stringsCompare_eq_zero_iff (a b : String) : stringsCompare a b = 0 ↔ a = b := by
  unfold stringsCompare
  by_cases h : a = b
  · simp [h]
  · simp only [h, if_false, iff_false]
    split <;> decide

theorem toDigitsCore_step (fuel n : Nat) (ds : List Char) (h : n < fuel) :
    Nat.toDigitsCore 10 fuel n ds =
      if n / 10 = 0 then Nat.digitChar (n % 10) :: ds
      else Nat.toDigitsCore 10 (fuel - 1) (n / 10) (Nat.digitChar (n % 10) :: ds) := by
  cases fuel with
  | zero => omega
  | succ f => simp [Nat.toDigitsCore]

theorem digitChar_zero : Nat.digitChar 0 = '0' := rfl

theorem toDigits_padded (n : Nat) (h : n < 100000) :
    List.replicate (5 - (Nat.toDigits 10 n).length) '0' ++ Nat.toDigits 10 n =
      [Nat.digitChar (n / 10000 % 10), Nat.digitChar (n / 1000 % 10),
        Nat.digitChar (n / 100 % 10), Nat.digitChar (n / 10 % 10), Nat.digitChar (n % 10)] := by
  unfold Nat.toDigits
  rw [toDigitsCore_step _ _ _ (by omega)]
  split
  · have h1 : n / 10000 % 10 = 0 := by omega
    have h2 : n / 1000 % 10 = 0 := by omega
    have h3 : n / 100 % 10 = 0 := by omega
    have h4 : n / 10 % 10 = 0 := by omega
    simp [h1, h2, h3, h4, List.replicate, digitChar_zero]
  · rw [toDigitsCore_step _ _ _ (by omega)]
    simp only [Nat.div_div_eq_div_mul, Nat.reduceMul]
    split
    · have h1 : n / 10000 % 10 = 0 := by omega
      have h2 : n / 1000 % 10 = 0 := by omega
      have h3 : n / 100 % 10 = 0 := by omega
      simp [h1, h2, h3, List.replicate, digitChar_zero]
    · rw [toDigitsCore_step _ _ _ (by omega)]
      simp only [Nat.div_div_eq_div_mul, Nat.reduceMul]
      split
      · have h1 : n / 10000 % 10 = 0 := by omega
        have h2 : n / 1000 % 10 = 0 := by omega
        simp [h1, h2, List.replicate, digitChar_zero]
      · rw [toDigitsCore_step _ _ _ (by omega)]
        simp only [Nat.div_div_eq_div_mul, Nat.reduceMul]
        split
        · have h1 : n / 10000 % 10 = 0 := by omega
          simp [h1, List.replicate, digitChar_zero]
        · rw [toDigitsCore_step _ _ _ (by omega)]
          simp only [Nat.div_div_eq_div_mul, Nat.reduceMul]
          have e6 : n / 100000 = 0 := by omega
          simp [e6, List.replicate]

theorem sprintf05d_eq (n : Nat) (h : n < 100000) : sprintf05d n = fiveDigitString n := by
  unfold sprintf05d fiveDigitString
  simp only [toDigits_padded n h]

theorem digitChar_isDigit (d : Nat) (h : d < 10) : (Nat.digitChar d).isDigit = true := by
  interval_cases d <;> decide

theorem fiveDigitString_isFiveDigits (n : Nat) : IsFiveDigits (fiveDigitString n) := by
  refine ⟨rfl, ?_⟩
  intro c hc
  simp only [fiveDigitString, List.mem_cons, List.mem_singleton, List.not_mem_nil,
    or_false] at hc
  rcases hc with h | h | h | h | h <;> subst h <;> exact digitChar_isDigit _ (Nat.mod_lt _ (by decide))

/-! ## Chunk encoding -/

theorem byte_and_ff (b : Byte) : (b &&& 0xff).val = b.val := by
  have h := Nat.and_pow_two_sub_one_eq_mod b.val 8
  have hb := b.isLt
  rw [Fin.and_val]
  have : ((0xff : Fin 256) : Nat) = 2 ^ 8 - 1 := rfl
  rw [this, h]
  omega

theorem or_shifted_eq_sum (a b c d e : Nat) (ha : a < 256) (hb : b < 256) (hc : c < 256)
    (hd : d < 256) (he : e < 256) :
    ((a <<< 32) % 2 ^ 64) ||| ((b <<< 24) % 2 ^ 64) ||| ((c <<< 16) % 2 ^ 64) |||
        ((d <<< 8) % 2 ^ 64) ||| e =
      a * 2 ^ 32 + b * 2 ^ 24 + c * 2 ^ 16 + d * 2 ^ 8 + e := by
  simp only [Nat.shiftLeft_eq]
  rw [Nat.mod_eq_of_lt (by omega), Nat.mod_eq_of_lt (by omega), Nat.mod_eq_of_lt (by omega),
    Nat.mod_eq_of_lt (by omega)]
  have e1 : a * 2 ^ 32 ||| b * 2 ^ 24 = 2 ^ 24 * (2 ^ 8 * a + b) := by
    have := Nat.mul_add_lt_is_or (i := 32) (b := b * 2 ^ 24) (by omega) a
    rw [Nat.mul_comm a, ← this]; ring
  have e2 : 2 ^ 24 * (2 ^ 8 * a + b) ||| c * 2 ^ 16 =
      2 ^ 16 * (2 ^ 8 * (2 ^ 8 * a + b) + c) := by
    have := Nat.mul_add_lt_is_or (i := 24) (b := c * 2 ^ 16) (by omega) (2 ^ 8 * a + b)
    rw [← this]; ring
  have e3 : 2 ^ 16 * (2 ^ 8 * (2 ^ 8 * a + b) + c) ||| d * 2 ^ 8 =
      2 ^ 8 * (2 ^ 8 * (2 ^ 8 * (2 ^ 8 * a + b) + c) + d) := by
    have := Nat.mul_add_lt_is_or (i := 16) (b := d * 2 ^ 8) (by omega)
      (2 ^ 8 * (2 ^ 8 * a + b) + c)
    rw [← this]; ring
  have e4 := Nat.mul_add_lt_is_or (i := 8) (b := e) (by omega)
    (2 ^ 8 * (2 ^ 8 * (2 ^ 8 * a + b) + c) + d)
  rw [e1, e2, e3, ← e4]; ring

theorem index_ok (bytes : List Byte) (i : Nat) (h : i < bytes.length) :
    index bytes i = .ok (bytes.getD i 0) := by
  simp [index, List.getD, List.getElem?_eq_getElem h]

theorem index_error (bytes : List Byte) (i : Nat) (h : bytes.length ≤ i) :
    index bytes i = .error .indexOutOfRange := by
  simp [index, List.getElem?_eq_none h]

theorem byteArray5ToLong_ok (bytes : List Byte) (offset : Nat)
    (h : offset + 4 < bytes.length) :
    byteArray5ToLong bytes offset = .ok (bigEndian40 bytes offset) := by
  unfold byteArray5ToLong
  rw [index_ok _ _ (by omega), index_ok _ _ (by omega), index_ok _ _ (by omega),
    index_ok _ _ (by omega), index_ok _ _ (by omega)]
  simp only [bind, Except.bind, pure, Except.pure, byte_and_ff]
  rw [or_shifted_eq_sum _ _ _ _ _ (Fin.isLt _) (Fin.isLt _) (Fin.isLt _) (Fin.isLt _)
    (Fin.isLt _)]
  rfl

theorem byteArray5ToLong_error (bytes : List Byte) (offset : Nat)
    (h : bytes.length ≤ offset + 4) :
    byteArray5ToLong bytes offset = .error .indexOutOfRange := by
  unfold byteArray5ToLong
  by_cases h0 : offset < bytes.length
  · by_cases h1 : offset + 1 < bytes.length
    · by_cases h2 : offset + 2 < bytes.length
      · by_cases h3 : offset + 3 < bytes.length
        · rw [index_ok _ _ h0, index_ok _ _ h1, index_ok _ _ h2, index_ok _ _ h3,
            index_error _ _ h]
          rfl
        · rw [index_ok _ _ h0, index_ok _ _ h1, index_ok _ _ h2,
            index_error _ _ (by omega)]
          rfl
      · rw [index_ok _ _ h0, index_ok _ _ h1, index_error _ _ (by omega)]
        rfl
    · rw [index_ok _ _ h0, index_error _ _ (by omega)]
      rfl
  · rw [index_error _ _ (by omega)]
    rfl

theorem getEncodedChunk_ok (hash : List Byte) (offset : Nat)
    (h : offset + 4 < hash.length) :
    getEncodedChunk hash offset = .ok (fiveDigitString (bigEndian40 hash offset % 100000)) := by
  unfold getEncodedChunk
  rw [byteArray5ToLong_ok _ _ h]
  simp only [bind, Except.bind, pure, Except.pure]
  rw [sprintf05d_eq _ (Nat.mod_lt _ (by decide))]

theorem getEncodedChunk_error (hash : List Byte) (offset : Nat)
    (h : hash.length ≤ offset + 4) :
    getEncodedChunk hash offset = .error .indexOutOfRange := by
  unfold getEncodedChunk
  rw [byteArray5ToLong_error _ _ h]
  rfl

/-- The six chunks of a digest: the five-digit numerals of its six 5-byte windows. -/
theorem getDisplayStringFor_ok (fingerprint : List Byte) (h : 30 ≤ fingerprint.length) :
    getDisplayStringFor fingerprint = .ok
      [fiveDigitString (bigEndian40 fingerprint 0 % 100000),
        fiveDigitString (bigEndian40 fingerprint 5 % 100000),
        fiveDigitString (bigEndian40 fingerprint 10 % 100000),
        fiveDigitString (bigEndian40 fingerprint 15 % 100000),
        fiveDigitString (bigEndian40 fingerprint 20 % 100000),
        fiveDigitString (bigEndian40 fingerprint 25 % 100000)] := by
  unfold getDisplayStringFor
  rw [getEncodedChunk_ok _ _ (by omega), getEncodedChunk_ok _ _ (by omega),
    getEncodedChunk_ok _ _ (by omega), getEncodedChunk_ok _ _ (by omega),
    getEncodedChunk_ok _ _ (by omega), getEncodedChunk_ok _ _ (by omega)]
  rfl

theorem getDisplayStringFor_error (fingerprint : List Byte) (h : fingerprint.length < 30) :
    getDisplayStringFor fingerprint = .error .indexOutOfRange := by
  unfold getDisplayStringFor
  by_cases h0 : 0 + 4 < fingerprint.length
  · by_cases h1 : 5 + 4 < fingerprint.length
    · by_cases h2 : 10 + 4 < fingerprint.length
      · by_cases h3 : 15 + 4 < fingerprint.length
        · by_cases h4 : 20 + 4 < fingerprint.length
          · rw [getEncodedChunk_ok _ _ h0, getEncodedChunk_ok _ _ h1,
              getEncodedChunk_ok _ _ h2, getEncodedChunk_ok _ _ h3,
              getEncodedChunk_ok _ _ h4, getEncodedChunk_error _ _ (by omega)]
            rfl
          · rw [getEncodedChunk_ok _ _ h0, getEncodedChunk_ok _ _ h1,
              getEncodedChunk_ok _ _ h2, getEncodedChunk_ok _ _ h3,
              getEncodedChunk_error _ _ (by omega)]
            rfl
        · rw [getEncodedChunk_ok _ _ h0, getEncodedChunk_ok _ _ h1,
            getEncodedChunk_ok _ _ h2, getEncodedChunk_error _ _ (by omega)]
          rfl
      · rw [getEncodedChunk_ok _ _ h0, getEncodedChunk_ok _ _ h1,
          getEncodedChunk_error _ _ (by omega)]
        rfl
    · rw [getEncodedChunk_ok _ _ h0, getEncodedChunk_error _ _ (by omega)]
      rfl
  · rw [getEncodedChunk_error _ _ (by omega)]
    rfl

/-- Whenever `getDisplayStringFor` returns, it returns six five-digit strings. -/
theorem getDisplayStringFor_shape (fingerprint : List Byte) (blocks : List String)
    (h : getDisplayStringFor fingerprint = .ok blocks) :
    blocks.length = 6 ∧ ∀ s ∈ blocks, IsFiveDigits s := by
  by_cases hl : 30 ≤ fingerprint.length
  · rw [getDisplayStringFor_ok _ hl] at h
    injection h with h
    subst h
    refine ⟨rfl, ?_⟩
    intro s hs
    simp only [List.mem_cons, List.mem_singleton, List.not_mem_nil, or_false] at hs
    rcases hs with h | h | h | h | h | h <;> subst h <;> exact fiveDigitString_isFiveDigits _
  · rw [getDisplayStringFor_error _ (by omega)] at h
    cases h

/-! ## Ordering of the two parties -/

theorem compareFingerprintBlocks_of_length_ne (l r : List String)
    (h : l.length ≠ r.length) :
    compareFingerprintBlocks l r = .ok ((l.length : Int) - (r.length : Int)) := by
  unfold compareFingerprintBlocks
  have : ¬ ((l.length : Int) - (r.length : Int) = 0) := by omega
  simp only [this, if_false]

theorem compareFingerprintBlocks_of_length_eq (l r : List String)
    (h : l.length = r.length) :
    compareFingerprintBlocks l r = if l = r then .error .indexOutOfRange else .ok 0 := by
  induction l generalizing r with
  | nil =>
    cases r with
    | nil => simp [compareFingerprintBlocks]
    | cons r0 rtail => simp at h
  | cons l0 ltail ih =>
    cases r with
    | nil => simp at h
    | cons r0 rtail =>
      have hl : ltail.length = rtail.length := by simpa using h
      unfold compareFingerprintBlocks
      simp only [List.length_cons, hl, Nat.cast_add, Nat.cast_one, sub_self, if_true,
        stringsCompare_eq_zero_iff, Nat.zero_lt_succ, and_true, List.cons.injEq]
      by_cases h0 : l0 = r0
      · simp only [h0, if_true, true_and]
        exact ih rtail hl
      · simp [h0]

/-! ## `bytes.Compare` -/

theorem bytesCompare_range (a b : List Byte) :
    bytesCompare a b = -1 ∨ bytesCompare a b = 0 ∨ bytesCompare a b = 1 := by
  induction a generalizing b with
  | nil => cases b <;> simp [bytesCompare]
  | cons x xs ih =>
    cases b with
    | nil => simp [bytesCompare]
    | cons y ys =>
      unfold bytesCompare
      split
      · simp
      · split
        · simp
        · exact ih ys

theorem bytesCompare_eq_neg_one_iff (a b : List Byte) :
    bytesCompare a b = -1 ↔ lexLt a b := by
  unfold lexLt
  induction a generalizing b with
  | nil =>
    cases b with
    | nil => simp [bytesCompare, List.Lex.not_nil_right]
    | cons y ys => simp [bytesCompare, List.Lex.nil]
  | cons x xs ih =>
    cases b with
    | nil => simp [bytesCompare, List.Lex.not_nil_right]
    | cons y ys =>
      unfold bytesCompare
      by_cases h1 : x < y
      · simp only [h1, if_true, true_iff]
        exact List.Lex.rel h1
      · by_cases h2 : y < x
        · simp only [h1, h2, if_false, if_true]
          constructor
          · intro h; cases h
          · intro h
            cases h with
            | cons h => exact absurd h2 (lt_irrefl _)
            | rel h => exact absurd h h1
        · have hxy : x = y := le_antisymm (not_lt.mp h2) (not_lt.mp h1)
          subst hxy
          simp only [h1, if_false, ih ys]
          exact (List.Lex.cons_iff).symm

theorem bytesCompare_eq_zero_iff (a b : List Byte) : bytesCompare a b = 0 ↔ a = b := by
  induction a generalizing b with
  | nil => cases b <;> simp [bytesCompare]
  | cons x xs ih =>
    cases b with
    | nil => simp [bytesCompare]
    | cons y ys =>
      unfold bytesCompare
      by_cases h1 : x < y
      · simp only [h1, if_true, List.cons.injEq]
        constructor
        · intro h; cases h
        · rintro ⟨h, _⟩; exact absurd h (ne_of_lt h1)
      · by_cases h2 : y < x
        · simp only [h1, h2, if_false, if_true, List.cons.injEq]
          constructor
          · intro h; cases h
          · rintro ⟨h, _⟩; exact absurd h.symm (ne_of_lt h2)
        · have hxy : x = y := le_antisymm (not_lt.mp h2) (not_lt.mp h1)
          subst hxy
          simp only [h1, if_false, ih ys, List.cons.injEq, true_and]

theorem lexLt_asymm {a b : List Byte} (h : lexLt a b) : ¬ lexLt b a :=
  (inferInstance : IsAsymm (List Byte) (List.Lex (· < ·))).asymm a b h

theorem lexLt_connected {a c : List Byte} (b : List Byte) (h : lexLt a c) :
    lexLt a b ∨ lexLt b c :=
  (inferInstance : IsOrderConnected (List Byte) (List.Lex (· < ·))).conn a b c h

theorem lexLe_antisymm {a b : List Byte} (h1 : lexLe a b) (h2 : lexLe b a) : a = b := by
  rcases (inferInstance : IsTrichotomous (List Byte) (List.Lex (· < ·))).trichotomous a b
    with h | h | h
  · exact absurd h h2
  · exact h
  · exact absurd h h1

theorem lexLe_trans {a b c : List Byte} (h1 : lexLe a b) (h2 : lexLe b c) : lexLe a c := by
  intro h
  rcases lexLt_connected b h with h | h
  · exact h2 h
  · exact h1 h

theorem lexLe_total (a b : List Byte) : lexLe a b ∨ lexLe b a := by
  by_cases h : lexLt b a
  · exact Or.inr (lexLt_asymm h)
  · exact Or.inl h



/-! ## Sorting -/

section SortProofs

variable {Key : Type}

theorem getElem?_mid (pre : List Key) (y : Key) (rest : List Key) :
    (pre ++ y :: rest)[pre.length]? = some y := by
  rw [List.getElem?_append_right (Nat.le_refl _)]
  simp

theorem getElem?_mid_succ (pre : List Key) (y x : Key) (rest : List Key) :
    (pre ++ y :: x :: rest)[pre.length + 1]? = some x := by
  rw [List.getElem?_append_right (by omega)]
  simp

theorem set_mid (pre : List Key) (y z : Key) (rest : List Key) :
    (pre ++ y :: rest).set pre.length z = pre ++ z :: rest := by
  rw [List.set_append_right _ _ (Nat.le_refl _)]
  simp

theorem set_mid_succ (pre : List Key) (y x z : Key) (rest : List Key) :
    (pre ++ y :: x :: rest).set (pre.length + 1) z = pre ++ y :: z :: rest := by
  rw [List.set_append_right _ _ (by omega)]
  simp

theorem Less_mid (Serialize : Key → List Byte) (pre : List Key) (y x : Key)
    (rest : List Key) :
    sortByteArrays.Less Serialize (pre ++ y :: x :: rest) (pre.length + 1) pre.length =
      .ok (lessKey Serialize x y) := by
  unfold sortByteArrays.Less
  rw [getElem?_mid_succ, getElem?_mid]
  simp only [lessKey]
  rcases bytesCompare_range (Serialize x) (Serialize y) with h | h | h <;> simp [h]

theorem Swap_mid (pre : List Key) (y x : Key) (rest : List Key) :
    sortByteArrays.Swap (pre ++ y :: x :: rest) (pre.length + 1) pre.length =
      .ok (pre ++ x :: y :: rest) := by
  unfold sortByteArrays.Swap
  rw [getElem?_mid_succ, getElem?_mid]
  simp only
  rw [set_mid, set_mid_succ]

theorem insertRev_length (Serialize : Key → List Byte) (x : Key) (t : List Key) :
    (insertRev Serialize x t).length = t.length + 1 := by
  induction t with
  | nil => rfl
  | cons y t ih =>
    unfold insertRev
    split <;> simp [ih]

theorem insertionSortInner_eq (Serialize : Key → List Byte) (t : List Key) (x : Key)
    (post : List Key) :
    insertionSortInner Serialize t.length (t.reverse ++ x :: post) =
      .ok ((insertRev Serialize x t).reverse ++ post) := by
  induction t generalizing post with
  | nil => simp [insertionSortInner, insertRev]
  | cons y t ih =>
    have hb : (y :: t).reverse ++ x :: post = t.reverse ++ y :: x :: post := by simp
    have hlen : t.length = t.reverse.length := by simp
    rw [hb, List.length_cons]
    unfold insertionSortInner
    nth_rewrite 1 [hlen]
    nth_rewrite 1 [hlen]
    rw [Less_mid]
    simp only [bind, Except.bind]
    by_cases hlt : lessKey Serialize x y = true
    · simp only [hlt, if_true]
      nth_rewrite 1 [hlen]
      nth_rewrite 1 [hlen]
      rw [Swap_mid]
      simp only
      rw [ih]
      simp [insertRev, hlt]
    · simp only [hlt, if_false]
      simp [insertRev, hlt, pure, Except.pure]

theorem insertionSortOuter_eq (Serialize : Key → List Byte) (rest t : List Key) :
    insertionSortOuter Serialize rest.length t.length (t.reverse ++ rest) =
      .ok ((rest.foldl (fun t x => insertRev Serialize x t) t).reverse) := by
  induction rest generalizing t with
  | nil => simp [insertionSortOuter]
  | cons x rest ih =>
    rw [List.length_cons]
    unfold insertionSortOuter
    rw [insertionSortInner_eq]
    simp only [bind, Except.bind]
    rw [← insertRev_length Serialize x t, ih]
    rfl

/-- The model of `sort.Sort` never panics, and leaves the keys in the order
`sortedKeys`. -/
theorem sortSort_eq (Serialize : Key → List Byte) (b : List Key) :
    sortSort Serialize b = .ok (sortedKeys Serialize b) := by
  cases b with
  | nil => rfl
  | cons b0 rest =>
    have := insertionSortOuter_eq Serialize rest [b0]
    simpa [sortSort, sortByteArrays.Len, sortedKeys, insertRev] using this





theorem lessKey_iff (Serialize : Key → List Byte) (x y : Key) :
    lessKey Serialize x y = true ↔ lexLt (Serialize x) (Serialize y) := by
  simp [lessKey, bytesCompare_eq_neg_one_iff]

theorem insertRev_perm (Serialize : Key → List Byte) (x : Key) (t : List Key) :
    (insertRev Serialize x t).Perm (x :: t) := by
  induction t with
  | nil => exact List.Perm.refl _
  | cons y t ih =>
    unfold insertRev
    split
    · exact (List.Perm.cons y ih).trans (List.Perm.swap x y t)
    · exact List.Perm.refl _

theorem foldl_insertRev_perm (Serialize : Key → List Byte) (rest t : List Key) :
    (rest.foldl (fun t x => insertRev Serialize x t) t).Perm (rest ++ t) := by
  induction rest generalizing t with
  | nil => exact List.Perm.refl _
  | cons x rest ih =>
    rw [List.foldl_cons]
    refine (ih _).trans ?_
    refine (List.Perm.append_left rest (insertRev_perm Serialize x t)).trans ?_
    exact (List.perm_middle).trans (List.Perm.refl _)

theorem sortedKeys_perm (Serialize : Key → List Byte) (b : List Key) :
    (sortedKeys Serialize b).Perm b := by
  unfold sortedKeys
  refine (List.reverse_perm _).trans ?_
  simpa using foldl_insertRev_perm Serialize b []

theorem insertRev_pairwise (Serialize : Key → List Byte) (x : Key) (t : List Key)
    (h : t.Pairwise (fun a b => lexLe (Serialize b) (Serialize a))) :
    (insertRev Serialize x t).Pairwise (fun a b => lexLe (Serialize b) (Serialize a)) := by
  induction t with
  | nil => simp [insertRev]
  | cons y t ih =>
    rw [List.pairwise_cons] at h
    unfold insertRev
    by_cases hlt : lessKey Serialize x y = true
    · rw [if_pos hlt, List.pairwise_cons]
      refine ⟨?_, ih h.2⟩
      intro z hz
      rcases List.mem_cons.mp ((insertRev_perm Serialize x t).mem_iff.mp hz) with hzx | hzt
      · subst hzx
        -- `x` is strictly before `y`, so `y` is not strictly before `x`
        intro hyz
        exact lexLt_asymm ((lessKey_iff Serialize z y).mp hlt) hyz
      · exact h.1 z hzt
    · rw [if_neg hlt, List.pairwise_cons, List.pairwise_cons]
      have hxy : lexLe (Serialize y) (Serialize x) := fun hc =>
        hlt ((lessKey_iff Serialize x y).mpr hc)
      refine ⟨?_, h⟩
      intro z hz
      rcases List.mem_cons.mp hz with hzy | hzt
      · subst hzy; exact hxy
      · exact lexLe_trans (h.1 z hzt) hxy

theorem foldl_insertRev_pairwise (Serialize : Key → List Byte) (rest t : List Key)
    (h : t.Pairwise (fun a b => lexLe (Serialize b) (Serialize a))) :
    (rest.foldl (fun t x => insertRev Serialize x t) t).Pairwise
      (fun a b => lexLe (Serialize b) (Serialize a)) := by
  induction rest generalizing t with
  | nil => exact h
  | cons x rest ih =>
    rw [List.foldl_cons]
    exact ih _ (insertRev_pairwise Serialize x t h)

theorem sortedKeys_sorted (Serialize : Key → List Byte) (b : List Key) :
    (sortedKeys Serialize b).Pairwise (fun a b => lexLe (Serialize a) (Serialize b)) := by
  unfold sortedKeys
  rw [List.pairwise_reverse]
  exact foldl_insertRev_pairwise Serialize b [] List.Pairwise.nil

theorem sortedKeys_map_sorted (Serialize : Key → List Byte) (b : List Key) :
    ((sortedKeys Serialize b).map Serialize).Pairwise lexLe := by
  rw [List.pairwise_map]
  exact sortedKeys_sorted Serialize b

theorem appendSerialized_eq (Serialize : Key → List Byte) (output : List Byte)
    (ks : List Key) :
    appendSerialized Serialize output ks = output ++ (ks.map Serialize).flatten := by
  induction ks generalizing output with
  | nil => simp [appendSerialized]
  | cons k ks ih => simp [appendSerialized, ih]

/-- The function `getLogicalKeyBytes` never panics; its result is the concatenation of
the serializations in the order `sortedKeys`. -/
theorem getLogicalKeyBytes_eq (Serialize : Key → List Byte) (identityKeys : List Key) :
    getLogicalKeyBytes Serialize identityKeys =
      .ok ((sortedKeys Serialize identityKeys).map Serialize).flatten := by
  unfold getLogicalKeyBytes
  rw [sortSort_eq]
  simp [bind, Except.bind, pure, Except.pure, appendSerialized_eq]

/-- Two lists of byte sequences that are sorted and permutations of each other are equal. -/
theorem eq_of_perm_of_lexLe_sorted {l₁ l₂ : List (List Byte)} (hp : l₁.Perm l₂)
    (h₁ : l₁.Pairwise lexLe) (h₂ : l₂.Pairwise lexLe) : l₁ = l₂ := by
  haveI : IsAntisymm (List Byte) lexLe := ⟨fun _ _ h1 h2 => lexLe_antisymm h1 h2⟩
  exact List.eq_of_perm_of_sorted hp h₁ h₂

theorem sortedKeys_map_eq_of_perm (Serialize : Key → List Byte) (keys₁ keys₂ : List Key)
    (h : (keys₁.map Serialize).Perm (keys₂.map Serialize)) :
    (sortedKeys Serialize keys₁).map Serialize = (sortedKeys Serialize keys₂).map Serialize := by
  apply eq_of_perm_of_lexLe_sorted _ (sortedKeys_map_sorted _ _) (sortedKeys_map_sorted _ _)
  exact (((sortedKeys_perm Serialize keys₁).map Serialize).trans h).trans
    ((sortedKeys_perm Serialize keys₂).map Serialize).symm

end SortProofs



/-! ## Iterated hashing -/

theorem repeatedHashingRound_fresh (sha : List Byte → List Byte) (key h : List Byte) :
    repeatedHashingRound sha key (sha512New, h) = (sha512New, hashRound sha key h) := rfl

theorem repeatedHashingLoop_fresh (sha : List Byte → List Byte) (key : List Byte) (n : Nat)
    (h : List Byte) :
    repeatedHashingLoop sha key n (sha512New, h) = (sha512New, (hashRound sha key)^[n] h) := by
  induction n generalizing h with
  | zero => rfl
  | succ n ih =>
    rw [repeatedHashingLoop, repeatedHashingRound_fresh, ih, Function.iterate_succ_apply]

theorem repeatedHashing_eq_iterate (sha : List Byte → List Byte) (startData key : List Byte)
    (iterations : Int) :
    repeatedHashing sha startData key iterations =
      (hashRound sha key)^[iterations.toNat] startData := by
  unfold repeatedHashing
  rw [repeatedHashingLoop_fresh]

theorem getFingerprint_eq {Key : Type} (sha : List Byte → List Byte)
    (Serialize : Key → List Byte) (iterations : Int) (stableIdentifier : List Byte)
    (identityKeys : List Key) :
    getFingerprint sha Serialize iterations stableIdentifier identityKeys =
      .ok (repeatedHashing sha ([0, 0] ++ keyBlob Serialize identityKeys ++ stableIdentifier)
        (keyBlob Serialize identityKeys) iterations) := by
  unfold getFingerprint
  rw [getLogicalKeyBytes_eq]
  rfl

/-! ## The displayed fingerprint -/

theorem chunksOf_length (digest : List Byte) : (chunksOf digest).length = 6 := by
  simp only [chunksOf, List.length_cons, List.length_nil]

theorem getDisplayStringFor_eq (digest : List Byte) :
    getDisplayStringFor digest =
      if 30 ≤ digest.length then .ok (chunksOf digest) else .error .indexOutOfRange := by
  by_cases h : 30 ≤ digest.length
  · rw [if_pos h, getDisplayStringFor_ok _ h]; rfl
  · rw [if_neg h, getDisplayStringFor_error _ (by omega)]

theorem createDisplayableFingerprint_eq (localFingerprint remoteFingerprint : List Byte) :
    createDisplayableFingerprint localFingerprint remoteFingerprint =
      if 30 ≤ localFingerprint.length ∧ 30 ≤ remoteFingerprint.length ∧
          chunksOf localFingerprint ≠ chunksOf remoteFingerprint then
        .ok (chunksOf localFingerprint ++ chunksOf remoteFingerprint)
      else .error .indexOutOfRange := by
  unfold createDisplayableFingerprint
  rw [getDisplayStringFor_eq, getDisplayStringFor_eq]
  by_cases hl : 30 ≤ localFingerprint.length
  · by_cases hr : 30 ≤ remoteFingerprint.length
    · simp only [hl, hr, if_true, true_and, bind, Except.bind]
      rw [compareFingerprintBlocks_of_length_eq (chunksOf localFingerprint)
        (chunksOf remoteFingerprint)
        ((chunksOf_length _).trans (chunksOf_length _).symm)]
      by_cases he : chunksOf localFingerprint = chunksOf remoteFingerprint
      · simp [he]
      · simp [he, pure, Except.pure]
    · simp [hl, hr, bind, Except.bind]
  · simp [hl, bind, Except.bind]

theorem CreateFingerprint_eq {Key : Type} (sha : List Byte → List Byte)
    (Serialize : Key → List Byte) (version : Int)
    (lId : List Byte) (lKeys : List Key) (rId : List Byte) (rKeys : List Key) :
    CreateFingerprint sha Serialize version lId lKeys rId rKeys =
      createDisplayableFingerprint (partyDigest sha Serialize lId lKeys)
        (partyDigest sha Serialize rId rKeys) := by
  unfold CreateFingerprint
  rw [getFingerprint_eq, getFingerprint_eq]
  simp only [bind, Except.bind, partyDigest]
  cases createDisplayableFingerprint _ _ <;> rfl



/-! ## The example data, evaluated -/

theorem exampleHash_round (k : List Byte) (c : Byte) (h : List Byte) :
    hashRound exampleHash (k ++ [c]) h = List.replicate 64 c := by
  simp [hashRound, exampleHash, ← List.append_assoc]

theorem repeatedHashing_exampleHash (s k : List Byte) (c : Byte) (n : Nat) :
    repeatedHashing exampleHash s (k ++ [c]) ((n + 1 : Nat) : Int) = List.replicate 64 c := by
  rw [repeatedHashing_eq_iterate, Int.toNat_ofNat, Function.iterate_succ_apply',
    exampleHash_round]

theorem partyDigest_example (id : List Byte) (c : Byte) :
    partyDigest exampleHash exampleSerialize id [[c]] = List.replicate 64 c := by
  have hk : keyBlob exampleSerialize [[c]] = [5] ++ [c] := rfl
  unfold partyDigest
  rw [hk]
  exact repeatedHashing_exampleHash _ _ c 5199

theorem CreateFingerprint_example (version : Int) :
    CreateFingerprint exampleHash exampleSerialize version [1] [[1]] [2] [[2]] =
      .ok ["10305", "10305", "10305", "10305", "10305", "10305",
        "20610", "20610", "20610", "20610", "20610", "20610"] := by
  rw [CreateFingerprint_eq, partyDigest_example, partyDigest_example]
  decide



/-! ## The claims -/

/-- C1 (does not hold on the code): swapping the two parties is claimed to leave the
fingerprint unchanged. On the code, whenever `CreateFingerprint` returns a fingerprint
`out`, the call with the parties swapped returns the two halves of `out` exchanged, and
that is a different result. -/
theorem CreateFingerprint_swap_exchanges_halves {Key : Type} (sha : List Byte → List Byte)
    (Serialize : Key → List Byte) (version : Int) (lId : List Byte) (lKeys : List Key)
    (rId : List Byte) (rKeys : List Key) (out : List String)
    (h : CreateFingerprint sha Serialize version lId lKeys rId rKeys = .ok out) :
    CreateFingerprint sha Serialize version rId rKeys lId lKeys =
        .ok (out.drop 6 ++ out.take 6) ∧
      CreateFingerprint sha Serialize version rId rKeys lId lKeys ≠
        CreateFingerprint sha Serialize version lId lKeys rId rKeys := by
  rw [CreateFingerprint_eq, createDisplayableFingerprint_eq] at h
  rw [CreateFingerprint_eq, createDisplayableFingerprint_eq, CreateFingerprint_eq,
    createDisplayableFingerprint_eq]
  split at h
  next hc =>
    obtain ⟨hl, hr, hne⟩ := hc
    injection h with h
    subst h
    have hlen : (chunksOf (partyDigest sha Serialize lId lKeys)).length = 6 :=
      chunksOf_length _
    have hswap : (30 ≤ (partyDigest sha Serialize rId rKeys).length ∧
        30 ≤ (partyDigest sha Serialize lId lKeys).length ∧
        chunksOf (partyDigest sha Serialize rId rKeys) ≠
          chunksOf (partyDigest sha Serialize lId lKeys)) := ⟨hr, hl, fun e => hne e.symm⟩
    rw [if_pos hswap, if_pos ⟨hl, hr, hne⟩, ← hlen, List.drop_left, List.take_left]
    refine ⟨rfl, ?_⟩
    intro e
    injection e with e
    exact hne (List.append_inj e ((chunksOf_length _).trans (chunksOf_length _).symm)).1.symm
  next => cases h

/-- C1, instantiated: with parties (`[1]`, key `[1]`) and (`[2]`, key `[2]`) the call
returns, and the swapped call returns the halves exchanged. -/
theorem CreateFingerprint_swap_exchanges_halves_witness :
    CreateFingerprint exampleHash exampleSerialize 0 [1] [[1]] [2] [[2]] =
        .ok ["10305", "10305", "10305", "10305", "10305", "10305",
          "20610", "20610", "20610", "20610", "20610", "20610"] ∧
      CreateFingerprint exampleHash exampleSerialize 0 [2] [[2]] [1] [[1]] =
        .ok ["20610", "20610", "20610", "20610", "20610", "20610",
          "10305", "10305", "10305", "10305", "10305", "10305"] :=
  ⟨CreateFingerprint_example 0,
    (CreateFingerprint_swap_exchanges_halves exampleHash exampleSerialize 0 [1] [[1]] [2] [[2]]
      _ (CreateFingerprint_example 0)).1⟩

/-- C2 (does not hold on the code): the sequence that is smaller at the first differing
position is claimed to come first. On the code, for any two digests whose six-chunk
sequences `L` (local) and `R` (remote) differ, the result is `L` followed by `R`,
whichever of the two is smaller. -/
theorem createDisplayableFingerprint_local_first (localFingerprint remoteFingerprint : List Byte)
    (L R : List String) (hL : getDisplayStringFor localFingerprint = .ok L)
    (hR : getDisplayStringFor remoteFingerprint = .ok R) (hne : L ≠ R) :
    createDisplayableFingerprint localFingerprint remoteFingerprint = .ok (L ++ R) := by
  rw [getDisplayStringFor_eq] at hL hR
  split at hL
  next hl =>
    split at hR
    next hr =>
      injection hL with hL
      injection hR with hR
      subst hL hR
      rw [createDisplayableFingerprint_eq, if_pos ⟨hl, hr, hne⟩]
    next => cases hR
  next => cases hL

/-- C2, instantiated at two digests where the remote sequence is the smaller one
(`58255 < 83138` at the first position): the local sequence still comes first. -/
theorem createDisplayableFingerprint_local_first_witness :
    stringsCompare "58255" "83138" = -1 ∧
      createDisplayableFingerprint digestB digestA =
        .ok (["83138", "34715", "57177", "82768", "38329", "44406"] ++
          ["58255", "23415", "79821", "80278", "96295", "36899"]) :=
  ⟨by decide,
    createDisplayableFingerprint_local_first digestB digestA
      ["83138", "34715", "57177", "82768", "38329", "44406"]
      ["58255", "23415", "79821", "80278", "96295", "36899"]
      (by decide) (by decide) (by decide)⟩

/-- C3 (does not hold on the code): for chunk sequences equal at all positions the claim
is that `local ++ remote` is returned. On the code, `compareFingerprintBlocks` on two
equal sequences ends in an index-out-of-range panic, and so does `CreateFingerprint` for
two parties with the same stable identifier and the same keys. -/
theorem CreateFingerprint_identical_parties_panics {Key : Type} (sha : List Byte → List Byte)
    (Serialize : Key → List Byte) (version : Int) (id : List Byte) (keys : List Key)
    (blocks : List String) :
    compareFingerprintBlocks blocks blocks = .error .indexOutOfRange ∧
      CreateFingerprint sha Serialize version id keys id keys = .error .indexOutOfRange := by
  constructor
  · rw [compareFingerprintBlocks_of_length_eq _ _ rfl, if_pos rfl]
  · rw [CreateFingerprint_eq, createDisplayableFingerprint_eq]
    simp

/-- C4: for a digest of at least 30 bytes and an offset among 0, 5, 10, 15, 20, 25,
`getEncodedChunk` returns the five-digit zero-padded decimal numeral of the 40-bit
big-endian value of the five bytes at the offset, reduced modulo 100000, and
`getDisplayStringFor` returns the list of these six numerals in ascending offset order. -/
theorem getEncodedChunk_spec (digest : List Byte) (offset : Nat)
    (hlen : 30 ≤ digest.length) (hoff : offset ∈ [0, 5, 10, 15, 20, 25]) :
    getEncodedChunk digest offset =
        .ok (fiveDigitString (bigEndian40 digest offset % 100000)) ∧
      IsFiveDigits (fiveDigitString (bigEndian40 digest offset % 100000)) ∧
      getDisplayStringFor digest =
        .ok ([0, 5, 10, 15, 20, 25].map
          (fun o => fiveDigitString (bigEndian40 digest o % 100000))) := by
  refine ⟨?_, fiveDigitString_isFiveDigits _, getDisplayStringFor_ok digest hlen⟩
  apply getEncodedChunk_ok
  simp only [List.mem_cons, List.mem_singleton, List.not_mem_nil, or_false] at hoff
  omega

/-- C4, instantiated at a 64-byte digest and offset 5. -/
theorem getEncodedChunk_spec_witness :
    getEncodedChunk digestA 5 = .ok "23415" ∧
      getDisplayStringFor digestA =
        .ok ["58255", "23415", "79821", "80278", "96295", "36899"] :=
  have h := getEncodedChunk_spec digestA 5 (by decide) (by decide)
  ⟨h.1.trans (by decide), h.2.2.trans (by decide)⟩



/-- C5 (does not hold on the code): every call is claimed to return twelve five-digit
strings. On the code, a call that returns does return twelve strings of exactly five
decimal digits each, but not every call returns: a party paired with itself ends in
an index-out-of-range panic. -/
theorem CreateFingerprint_shape {Key : Type} (sha : List Byte → List Byte)
    (Serialize : Key → List Byte) (version : Int) (lId : List Byte) (lKeys : List Key)
    (rId : List Byte) (rKeys : List Key) (out : List String)
    (h : CreateFingerprint sha Serialize version lId lKeys rId rKeys = .ok out) :
    (out.length = 12 ∧ ∀ s ∈ out, IsFiveDigits s) ∧
      CreateFingerprint sha Serialize version lId lKeys lId lKeys =
        .error .indexOutOfRange := by
  constructor
  · rw [CreateFingerprint_eq, createDisplayableFingerprint_eq] at h
    split at h
    next hc =>
      injection h with h
      subst h
      have hL := getDisplayStringFor_shape (partyDigest sha Serialize lId lKeys) _
        (getDisplayStringFor_ok _ hc.1)
      have hR := getDisplayStringFor_shape (partyDigest sha Serialize rId rKeys) _
        (getDisplayStringFor_ok _ hc.2.1)
      constructor
      · rw [List.length_append, chunksOf_length, chunksOf_length]
      · intro s hs
        rcases List.mem_append.mp hs with hs | hs
        · exact hL.2 s hs
        · exact hR.2 s hs
    next => cases h
  · rw [CreateFingerprint_eq, createDisplayableFingerprint_eq]
    simp

/-- C5, instantiated: the call for parties (`[1]`, key `[1]`) and (`[2]`, key `[2]`)
returns twelve five-digit strings, and the first party paired with itself panics. -/
theorem CreateFingerprint_shape_witness :
    CreateFingerprint exampleHash exampleSerialize 0 [1] [[1]] [2] [[2]] =
        .ok ["10305", "10305", "10305", "10305", "10305", "10305",
          "20610", "20610", "20610", "20610", "20610", "20610"] ∧
      CreateFingerprint exampleHash exampleSerialize 0 [1] [[1]] [1] [[1]] =
        .error .indexOutOfRange :=
  ⟨CreateFingerprint_example 0,
    (CreateFingerprint_shape exampleHash exampleSerialize 0 [1] [[1]] [2] [[2]] _
      (CreateFingerprint_example 0)).2⟩

/-- C6: `getLogicalKeyBytes` returns a blob, and returns the same blob for a key list and
for any permutation of it; more generally the blob is the same for any two key lists
whose serializations form the same multiset. -/
theorem getLogicalKeyBytes_perm_invariant {Key : Type} (Serialize : Key → List Byte)
    (keys₁ keys₂ : List Key) :
    (∃ blob, getLogicalKeyBytes Serialize keys₁ = .ok blob) ∧
      (keys₁.Perm keys₂ →
        getLogicalKeyBytes Serialize keys₁ = getLogicalKeyBytes Serialize keys₂) ∧
      ((keys₁.map Serialize).Perm (keys₂.map Serialize) →
        getLogicalKeyBytes Serialize keys₁ = getLogicalKeyBytes Serialize keys₂) := by
  have key : (keys₁.map Serialize).Perm (keys₂.map Serialize) →
      getLogicalKeyBytes Serialize keys₁ = getLogicalKeyBytes Serialize keys₂ := by
    intro h
    rw [getLogicalKeyBytes_eq, getLogicalKeyBytes_eq,
      sortedKeys_map_eq_of_perm Serialize keys₁ keys₂ h]
  exact ⟨⟨_, getLogicalKeyBytes_eq Serialize keys₁⟩, fun h => key (h.map Serialize), key⟩

/-- C6, instantiated at a list of three keys and one of its permutations. -/
theorem getLogicalKeyBytes_perm_invariant_witness :
    getLogicalKeyBytes exampleSerialize [[3, 1], [2, 9], [1]] =
        getLogicalKeyBytes exampleSerialize [[1], [3, 1], [2, 9]] ∧
      getLogicalKeyBytes exampleSerialize [[1], [3, 1], [2, 9]] =
        .ok [5, 1, 5, 2, 9, 5, 3, 1] :=
  ⟨(getLogicalKeyBytes_perm_invariant exampleSerialize [[3, 1], [2, 9], [1]]
      [[1], [3, 1], [2, 9]]).2.1 (by decide), by decide⟩

/-- C7: `getLogicalKeyBytes` returns the concatenation of the serializations of a
rearrangement of the given keys (every key kept, duplicates included) in which each
serialization is lexicographically less than or equal to every later one; the length of
the blob is the sum of the lengths of the serializations. -/
theorem getLogicalKeyBytes_sorted_concat {Key : Type} (Serialize : Key → List Byte)
    (identityKeys : List Key) :
    ∃ sorted : List Key, ∃ blob : List Byte,
      sorted.Perm identityKeys ∧
      (sorted.map Serialize).Pairwise lexLe ∧
      blob = (sorted.map Serialize).flatten ∧
      getLogicalKeyBytes Serialize identityKeys = .ok blob ∧
      blob.length = (identityKeys.map (fun k => (Serialize k).length)).sum := by
  refine ⟨sortedKeys Serialize identityKeys, _, sortedKeys_perm _ _,
    sortedKeys_map_sorted _ _, rfl, getLogicalKeyBytes_eq _ _, ?_⟩
  rw [List.length_flatten, List.map_map]
  exact ((sortedKeys_perm Serialize identityKeys).map _).sum_eq

/-- C8: `getFingerprint(n, id, keys)` is `repeatedHashing(seed, K, n)` where `K` is the
blob returned by `getLogicalKeyBytes(keys)` and the seed is `0x00 0x00`, then `K`, then
`id`. -/
theorem getFingerprint_seed {Key : Type} (sha : List Byte → List Byte)
    (Serialize : Key → List Byte) (iterations : Int) (stableIdentifier : List Byte)
    (identityKeys : List Key) :
    ∃ K : List Byte, getLogicalKeyBytes Serialize identityKeys = .ok K ∧
      getFingerprint sha Serialize iterations stableIdentifier identityKeys =
        .ok (repeatedHashing sha ([0, 0] ++ K ++ stableIdentifier) K iterations) :=
  ⟨keyBlob Serialize identityKeys, getLogicalKeyBytes_eq _ _, getFingerprint_eq _ _ _ _ _⟩

/-- C9: `repeatedHashing(s, k, n)` is the `n`-fold iterate, from `s`, of
`h ↦ SHA512(h ++ k)`; after any number of rounds the accumulator is again the fresh,
empty one and the running value is the iterate so far; with zero rounds the seed is
returned unchanged. -/
theorem repeatedHashing_refines_iterate (sha : List Byte → List Byte) (s k : List Byte)
    (n : Nat) :
    repeatedHashing sha s k (n : Int) = (hashRound sha k)^[n] s ∧
      (∀ i : Nat, repeatedHashingLoop sha k i (sha512New, s) =
        (sha512New, (hashRound sha k)^[i] s)) ∧
      sha512New.written = [] ∧
      repeatedHashing sha s k 0 = s := by
  refine ⟨?_, fun i => repeatedHashingLoop_fresh sha k i s, rfl, rfl⟩
  rw [repeatedHashing_eq_iterate, Int.toNat_ofNat]

/-- C10: the `version` argument of `CreateFingerprint` has no influence on the result;
the two version bytes of the seed are those of the constant `FINGERPRINT_VERSION`,
`0x00 0x00`. -/
theorem CreateFingerprint_version_irrelevant {Key : Type} (sha : List Byte → List Byte)
    (Serialize : Key → List Byte) (v₁ v₂ : Int) (lId : List Byte) (lKeys : List Key)
    (rId : List Byte) (rKeys : List Key) :
    CreateFingerprint sha Serialize v₁ lId lKeys rId rKeys =
        CreateFingerprint sha Serialize v₂ lId lKeys rId rKeys ∧
      binaryWriteBigEndianInt16 FINGERPRINT_VERSION = [0, 0] :=
  ⟨rfl, rfl⟩

/-! ## Further facts for the remaining claims -/

theorem repeatedHashing_length (sha : List Byte → List Byte)
    (hsha : ∀ x, (sha x).length = 64) (startData key : List Byte) (iterations : Int)
    (hn : 1 ≤ iterations) :
    (repeatedHashing sha startData key iterations).length = 64 := by
  rw [repeatedHashing_eq_iterate]
  obtain ⟨m, hm⟩ : ∃ m, iterations.toNat = m + 1 := ⟨iterations.toNat - 1, by omega⟩
  rw [hm, Function.iterate_succ_apply']
  exact hsha _

theorem partyDigest_length {Key : Type} (sha : List Byte → List Byte)
    (hsha : ∀ x, (sha x).length = 64) (Serialize : Key → List Byte) (id : List Byte)
    (keys : List Key) : (partyDigest sha Serialize id keys).length = 64 :=
  repeatedHashing_length sha hsha _ _ ITERATIONS (by decide)

theorem exampleHash_length (x : List Byte) : (exampleHash x).length = 64 := by
  simp [exampleHash]

theorem keyBlob_nil {Key : Type} (Serialize : Key → List Byte) :
    keyBlob Serialize ([] : List Key) = [] := rfl

theorem partyDigest_example_nil :
    partyDigest exampleHash exampleSerialize [1] ([] : List (List Byte)) =
      List.replicate 64 1 := by
  have hfix : hashRound exampleHash [] (List.replicate 64 (1 : Byte)) =
      List.replicate 64 1 := by decide
  have hfirst : hashRound exampleHash [] ([0, 0] ++ [] ++ [(1 : Byte)]) =
      List.replicate 64 1 := by decide
  unfold partyDigest
  rw [keyBlob_nil, repeatedHashing_eq_iterate]
  have h5200 : ITERATIONS.toNat = 5199 + 1 := by decide
  rw [h5200, Function.iterate_succ_apply, hfirst, Function.iterate_fixed hfix]

theorem CreateFingerprint_example_nil (version : Int) :
    CreateFingerprint exampleHash exampleSerialize version [1] [] [2] [[2]] =
      .ok ["10305", "10305", "10305", "10305", "10305", "10305",
        "20610", "20610", "20610", "20610", "20610", "20610"] := by
  rw [CreateFingerprint_eq, partyDigest_example_nil, partyDigest_example]
  decide

theorem Less_of_getElem? {Key : Type} (Serialize : Key → List Byte) (b : List Key)
    (i j : Nat) (x y : Key) (hx : b[i]? = some x) (hy : b[j]? = some y) :
    sortByteArrays.Less Serialize b i j = .ok (lessKey Serialize x y) := by
  unfold sortByteArrays.Less
  rw [hx, hy]
  simp only [lessKey]
  rcases bytesCompare_range (Serialize x) (Serialize y) with h | h | h <;> simp [h]

theorem Less_ne_logPanic {Key : Type} (Serialize : Key → List Byte) (b : List Key)
    (i j : Nat) : sortByteArrays.Less Serialize b i j ≠ .error .logPanic := by
  cases hx : b[i]? with
  | none => simp [sortByteArrays.Less, hx]
  | some x =>
    cases hy : b[j]? with
    | none => simp [sortByteArrays.Less, hx, hy]
    | some y => rw [Less_of_getElem? Serialize b i j x y hx hy]; simp

theorem compareFingerprintBlocksCalls_le (l r : List String) :
    1 ≤ compareFingerprintBlocksCalls l r ∧ compareFingerprintBlocksCalls l r ≤ l.length + 1 := by
  induction l generalizing r with
  | nil =>
    cases r with
    | nil => simp [compareFingerprintBlocksCalls]
    | cons r0 rtail =>
      have h : ¬ (((([] : List String).length : Nat) : Int) -
          (((r0 :: rtail).length : Nat) : Int) = 0) := by
        simp only [List.length_nil, List.length_cons]; omega
      unfold compareFingerprintBlocksCalls
      simp only [h, if_false]
      omega
  | cons l0 ltail ih =>
    cases r with
    | nil =>
      have h : ¬ ((((l0 :: ltail).length : Nat) : Int) -
          ((([] : List String).length : Nat) : Int) = 0) := by
        simp only [List.length_nil, List.length_cons]; omega
      unfold compareFingerprintBlocksCalls
      simp only [h, if_false]
      omega
    | cons r0 rtail =>
      unfold compareFingerprintBlocksCalls
      have := ih rtail
      simp only
      split
      · split
        · simp only [List.length_cons]; omega
        · simp
      · simp

theorem compareFingerprintBlocks_cons_same (s : String) (ltail rtail : List String) :
    compareFingerprintBlocks (s :: ltail) (s :: rtail) =
      compareFingerprintBlocks ltail rtail := by
  by_cases h : ltail.length = rtail.length
  · rw [compareFingerprintBlocks_of_length_eq _ _ (by simp [h]),
      compareFingerprintBlocks_of_length_eq _ _ h]
    simp
  · rw [compareFingerprintBlocks_of_length_ne _ _ (by simpa using h),
      compareFingerprintBlocks_of_length_ne _ _ h]
    simp

/-! ## The caller's key storage -/

section Storage

variable {Key : Type}

theorem KeySlice.read_length (s : KeySlice) (mem : List Key)
    (h : s.off + s.len ≤ mem.length) : (s.read mem).length = s.len := by
  simp only [KeySlice.read, List.length_take, List.length_drop]
  omega

theorem KeySlice.decompose (s : KeySlice) (mem : List Key) :
    mem.take s.off ++ s.read mem ++ mem.drop (s.off + s.len) = mem := by
  unfold KeySlice.read
  rw [← List.drop_drop, List.append_assoc, List.take_append_drop, List.take_append_drop]

theorem KeySlice.write_perm (s : KeySlice) (mem content : List Key)
    (hc : content.Perm (s.read mem)) : (s.write mem content).Perm mem := by
  have h := KeySlice.decompose s mem
  unfold KeySlice.write
  nth_rewrite 3 [← h]
  exact List.Perm.append_right _ (List.Perm.append_left _ hc)

theorem KeySlice.write_length (s : KeySlice) (mem content : List Key)
    (hc : content.Perm (s.read mem)) : (s.write mem content).length = mem.length :=
  (KeySlice.write_perm s mem content hc).length_eq

theorem KeySlice.getElem?_read (s : KeySlice) (mem : List Key) (i : Nat) :
    (s.read mem)[i]? = if i < s.len then mem[s.off + i]? else none := by
  simp only [KeySlice.read, List.getElem?_take, List.getElem?_drop]

theorem KeySlice.getElem?_write_outside (s : KeySlice) (mem content : List Key)
    (hb : s.off + s.len ≤ mem.length) (hc : content.length = s.len) (i : Nat)
    (hi : i < s.off ∨ s.off + s.len ≤ i) :
    (s.write mem content)[i]? = mem[i]? := by
  have htake : (mem.take s.off).length = s.off := by
    rw [List.length_take]; omega
  unfold KeySlice.write
  rcases hi with hi | hi
  · rw [List.append_assoc, List.getElem?_append_left (by omega),
      List.getElem?_take_of_lt hi]
  · rw [List.getElem?_append_right (by rw [List.length_append]; omega),
      List.getElem?_drop, List.length_append, htake, hc]
    congr 1
    omega

theorem KeySlice.getElem?_write_inside (s : KeySlice) (mem content : List Key)
    (hb : s.off + s.len ≤ mem.length) (hc : content.length = s.len) (i : Nat)
    (hi : i < s.len) :
    (s.write mem content)[s.off + i]? = content[i]? := by
  have htake : (mem.take s.off).length = s.off := by
    rw [List.length_take]; omega
  unfold KeySlice.write
  rw [List.append_assoc, List.getElem?_append_right (by omega), htake,
    List.getElem?_append_left (by omega)]
  congr 1
  omega

theorem KeySlice.read_write_same (s : KeySlice) (mem content : List Key)
    (hb : s.off + s.len ≤ mem.length) (hc : content.length = s.len) :
    s.read (s.write mem content) = content := by
  apply List.ext_getElem?
  intro i
  rw [KeySlice.getElem?_read]
  by_cases hi : i < s.len
  · rw [if_pos hi, KeySlice.getElem?_write_inside s mem content hb hc i hi]
  · rw [if_neg hi, List.getElem?_eq_none (by omega)]

theorem KeySlice.read_write_disjoint (s t : KeySlice) (mem content : List Key)
    (hb : s.off + s.len ≤ mem.length) (hc : content.length = s.len)
    (hd : t.off + t.len ≤ s.off ∨ s.off + s.len ≤ t.off) :
    t.read (s.write mem content) = t.read mem := by
  apply List.ext_getElem?
  intro i
  rw [KeySlice.getElem?_read, KeySlice.getElem?_read]
  by_cases hi : i < t.len
  · rw [if_pos hi, if_pos hi,
      KeySlice.getElem?_write_outside s mem content hb hc (t.off + i) (by omega)]
  · rw [if_neg hi, if_neg hi]

theorem getLogicalKeyBytes_memAfter_eq (Serialize : Key → List Byte) (s : KeySlice)
    (mem : List Key) :
    getLogicalKeyBytes_memAfter Serialize s mem =
      .ok (s.write mem (sortedKeys Serialize (s.read mem))) := by
  unfold getLogicalKeyBytes_memAfter
  rw [sortSort_eq]
  rfl

end Storage

/-! ## The calls on the hash accumulator -/

theorem Traced.bind_eq {α β : Type} (x : Traced α) (f : α → Traced β) :
    (x >>= f) = Traced.bind x f := rfl

theorem Traced.pure_eq {α : Type} (a : α) : (Pure.pure a : Traced α) = ⟨0, .ok a⟩ := rfl

theorem Traced.bind_mk_ok {α β : Type} (n : Nat) (a : α) (f : α → Traced β) :
    Traced.bind ⟨n, .ok a⟩ f = ⟨n + (f a).hashCalls, (f a).outcome⟩ := rfl

theorem Traced.bind_mk_error {α β : Type} (n : Nat) (e : Panic) (f : α → Traced β) :
    Traced.bind (⟨n, .error e⟩ : Traced α) f = ⟨n, .error e⟩ := rfl

theorem repeatedHashingLoopT_eq (sha : List Byte → List Byte) (key : List Byte) (n : Nat)
    (st : Hash × List Byte) :
    repeatedHashingLoopT sha key n st = ⟨4 * n, .ok (repeatedHashingLoop sha key n st)⟩ := by
  induction n generalizing st with
  | zero => rfl
  | succ n ih =>
    unfold repeatedHashingLoopT repeatedHashingLoop
    simp only [Traced.bind_eq, javaLikeUpdateT, javaLikeDigestT, Traced.hashCall,
      Traced.pure_eq, Traced.bind_mk_ok, ih]
    congr 1
    omega

theorem repeatedHashingT_eq (sha : List Byte → List Byte) (startData key : List Byte)
    (iterations : Int) :
    repeatedHashingT sha startData key iterations =
      ⟨1 + 4 * iterations.toNat, .ok (repeatedHashing sha startData key iterations)⟩ := by
  unfold repeatedHashingT repeatedHashing
  simp only [Traced.bind_eq, Traced.hashCall, Traced.pure_eq, Traced.bind_mk_ok,
    repeatedHashingLoopT_eq]
  rfl

theorem getFingerprintT_eq {Key : Type} (sha : List Byte → List Byte)
    (Serialize : Key → List Byte) (iterations : Int) (stableIdentifier : List Byte)
    (identityKeys : List Key) :
    getFingerprintT sha Serialize iterations stableIdentifier identityKeys =
      ⟨1 + 4 * iterations.toNat,
        getFingerprint sha Serialize iterations stableIdentifier identityKeys⟩ := by
  unfold getFingerprintT
  rw [getFingerprint_eq, getLogicalKeyBytes_eq]
  simp only [Traced.bind_eq, Traced.ofExcept, Traced.bind_mk_ok, repeatedHashingT_eq]
  simp only [Nat.zero_add]
  rfl

theorem CreateFingerprintT_eq {Key : Type} (sha : List Byte → List Byte)
    (Serialize : Key → List Byte) (version : Int)
    (lId : List Byte) (lKeys : List Key) (rId : List Byte) (rKeys : List Key) :
    CreateFingerprintT sha Serialize version lId lKeys rId rKeys =
      ⟨2 * (1 + 4 * 5200), CreateFingerprint sha Serialize version lId lKeys rId rKeys⟩ := by
  unfold CreateFingerprintT
  rw [CreateFingerprint_eq]
  simp only [getFingerprintT_eq, getFingerprint_eq, Traced.bind_eq, Traced.bind_mk_ok,
    Traced.ofExcept]
  have h : ITERATIONS.toNat = 5200 := by decide
  rw [h]
  cases hc : createDisplayableFingerprint
      (repeatedHashing sha ([0, 0] ++ keyBlob Serialize lKeys ++ lId)
        (keyBlob Serialize lKeys) ITERATIONS)
      (repeatedHashing sha ([0, 0] ++ keyBlob Serialize rKeys ++ rId)
        (keyBlob Serialize rKeys) ITERATIONS) with
  | error e => simp only [Traced.bind, partyDigest, hc]
  | ok v => simp only [Traced.bind, partyDigest, hc, Traced.pure_eq, Nat.add_zero]

/-! ## The remaining claims -/

/-- C11 (as amended): `CreateFingerprint` has no check for an empty key list. For an empty
list `getLogicalKeyBytes` returns the empty blob, `getFingerprint` hashes the seed
`0x00 0x00 ++ id` with an empty key blob, and, with a hash of 64-byte output, a call in
which one party's key list is empty returns the twelve blocks `local ++ remote` whenever
the two chunk sequences differ. -/
theorem CreateFingerprint_empty_key_list {Key : Type} (sha : List Byte → List Byte)
    (Serialize : Key → List Byte) (version : Int) (lId : List Byte) (lKeys : List Key)
    (rId : List Byte) (rKeys : List Key)
    (hsha : ∀ x, (sha x).length = 64)
    (hempty : lKeys = [] ∨ rKeys = [])
    (hne : chunksOf (partyDigest sha Serialize lId lKeys) ≠
      chunksOf (partyDigest sha Serialize rId rKeys)) :
    getLogicalKeyBytes Serialize ([] : List Key) = .ok [] ∧
      (∀ (n : Int) (id : List Byte), getFingerprint sha Serialize n id ([] : List Key) =
        .ok (repeatedHashing sha ([0, 0] ++ id) [] n)) ∧
      CreateFingerprint sha Serialize version lId lKeys rId rKeys =
        .ok (chunksOf (partyDigest sha Serialize lId lKeys) ++
          chunksOf (partyDigest sha Serialize rId rKeys)) := by
  refine ⟨rfl, ?_, ?_⟩
  · intro n id
    rw [getFingerprint_eq, keyBlob_nil]
    rfl
  · rw [CreateFingerprint_eq, createDisplayableFingerprint_eq,
      if_pos ⟨by rw [partyDigest_length sha hsha]; decide,
        by rw [partyDigest_length sha hsha]; decide, hne⟩]

/-- C11, instantiated: local party `[1]` with no key, remote party `[2]` with key `[2]`. -/
theorem CreateFingerprint_empty_key_list_witness :
    CreateFingerprint exampleHash exampleSerialize 0 [1] ([] : List (List Byte)) [2] [[2]] =
      .ok (chunksOf (partyDigest exampleHash exampleSerialize [1] ([] : List (List Byte))) ++
        chunksOf (partyDigest exampleHash exampleSerialize [2] [[2]])) :=
  (CreateFingerprint_empty_key_list exampleHash exampleSerialize 0 [1] [] [2] [[2]]
    exampleHash_length (Or.inl rfl)
    (by rw [partyDigest_example_nil, partyDigest_example]; decide)).2.2

/-- C11 as stated fails: with an empty key list for the local party the canonical blob is
computed without error, and the call returns a fingerprint. -/
theorem CreateFingerprint_empty_key_list_counterexample :
    getLogicalKeyBytes exampleSerialize ([] : List (List Byte)) = .ok [] ∧
      CreateFingerprint exampleHash exampleSerialize 0 [1] ([] : List (List Byte)) [2] [[2]] =
        .ok ["10305", "10305", "10305", "10305", "10305", "10305",
          "20610", "20610", "20610", "20610", "20610", "20610"] :=
  ⟨rfl, CreateFingerprint_example_nil 0⟩

/-- C12 (as amended): `CreateFingerprint` sorts its key lists where they are stored. After
its two calls of `getFingerprint` the caller's key storage holds the same keys as before
(a permutation), every element outside the two key lists is unchanged, and the remote
key list is in ascending lexicographic order of serializations; when the two key lists
do not overlap in storage, each of them holds the same keys as before (a permutation of
its former content), the local list in ascending order too. -/
theorem CreateFingerprint_sorts_key_lists {Key : Type} (Serialize : Key → List Byte)
    (lKeys rKeys : KeySlice) (mem : List Key)
    (hl : lKeys.off + lKeys.len ≤ mem.length) (hr : rKeys.off + rKeys.len ≤ mem.length) :
    ∃ memAfter : List Key,
      CreateFingerprint_memAfter Serialize lKeys rKeys mem = .ok memAfter ∧
      memAfter.Perm mem ∧
      (∀ i, (i < lKeys.off ∨ lKeys.off + lKeys.len ≤ i) →
        (i < rKeys.off ∨ rKeys.off + rKeys.len ≤ i) → memAfter[i]? = mem[i]?) ∧
      ((rKeys.read memAfter).map Serialize).Pairwise lexLe ∧
      ((lKeys.off + lKeys.len ≤ rKeys.off ∨ rKeys.off + rKeys.len ≤ lKeys.off) →
        (lKeys.read memAfter).Perm (lKeys.read mem) ∧
        ((lKeys.read memAfter).map Serialize).Pairwise lexLe ∧
        (rKeys.read memAfter).Perm (rKeys.read mem)) := by
  -- the storage after the first call
  have hp1 := sortedKeys_perm Serialize (lKeys.read mem)
  have hlen1 : (sortedKeys Serialize (lKeys.read mem)).length = lKeys.len := by
    rw [hp1.length_eq, KeySlice.read_length lKeys mem hl]
  have hm1 := KeySlice.write_perm lKeys mem _ hp1
  have hr1 : rKeys.off + rKeys.len ≤
      (lKeys.write mem (sortedKeys Serialize (lKeys.read mem))).length := by
    rw [hm1.length_eq]; exact hr
  -- the storage after the second call
  have hp2 := sortedKeys_perm Serialize
    (rKeys.read (lKeys.write mem (sortedKeys Serialize (lKeys.read mem))))
  have hlen2 : (sortedKeys Serialize
      (rKeys.read (lKeys.write mem (sortedKeys Serialize (lKeys.read mem))))).length =
      rKeys.len := by
    rw [hp2.length_eq, KeySlice.read_length rKeys _ hr1]
  have hm2 := KeySlice.write_perm rKeys _ _ hp2
  refine ⟨rKeys.write (lKeys.write mem (sortedKeys Serialize (lKeys.read mem)))
    (sortedKeys Serialize
      (rKeys.read (lKeys.write mem (sortedKeys Serialize (lKeys.read mem))))), ?_,
    hm2.trans hm1, ?_, ?_, ?_⟩
  · unfold CreateFingerprint_memAfter
    rw [getLogicalKeyBytes_memAfter_eq]
    simp only [bind, Except.bind]
    rw [getLogicalKeyBytes_memAfter_eq]
    rfl
  · intro i hil hir
    rw [KeySlice.getElem?_write_outside rKeys _ _ hr1 hlen2 i hir,
      KeySlice.getElem?_write_outside lKeys _ _ hl hlen1 i hil]
  · rw [KeySlice.read_write_same rKeys _ _ hr1 hlen2]
    exact sortedKeys_map_sorted _ _
  · intro hd
    have hlread : lKeys.read (rKeys.write
        (lKeys.write mem (sortedKeys Serialize (lKeys.read mem)))
        (sortedKeys Serialize
          (rKeys.read (lKeys.write mem (sortedKeys Serialize (lKeys.read mem)))))) =
        sortedKeys Serialize (lKeys.read mem) := by
      rw [KeySlice.read_write_disjoint rKeys lKeys _ _ hr1 hlen2 hd,
        KeySlice.read_write_same lKeys _ _ hl hlen1]
    have hrread : rKeys.read (lKeys.write mem (sortedKeys Serialize (lKeys.read mem))) =
        rKeys.read mem :=
      KeySlice.read_write_disjoint lKeys rKeys _ _ hl hlen1 hd.symm
    rw [hlread, KeySlice.read_write_same rKeys _ _ hr1 hlen2, hrread]
    exact ⟨hp1, sortedKeys_map_sorted _ _, sortedKeys_perm _ _⟩

/-- C12, instantiated twice. With the local list `[[2], [1]]` and the remote list `[[3]]`
stored apart, the storage `[[2], [1], [3]]` becomes `[[1], [2], [3]]`. With two
overlapping windows of the storage `[[3], [1], [2]]` (local: the first two elements,
remote: the last two) the storage also becomes `[[1], [2], [3]]`, so the local window
then holds `[[1], [2]]`, which is no permutation of `[[3], [1]]`. -/
theorem CreateFingerprint_sorts_key_lists_witness :
    CreateFingerprint_memAfter exampleSerialize ⟨0, 2⟩ ⟨2, 1⟩ [[2], [1], [3]] =
        .ok [[1], [2], [3]] ∧
      CreateFingerprint_memAfter exampleSerialize ⟨0, 2⟩ ⟨1, 2⟩ [[3], [1], [2]] =
        .ok [[1], [2], [3]] ∧
      ∃ memAfter : List (List Byte),
        CreateFingerprint_memAfter exampleSerialize ⟨0, 2⟩ ⟨1, 2⟩ [[3], [1], [2]] =
          .ok memAfter ∧ memAfter.Perm [[3], [1], [2]] :=
  have h := CreateFingerprint_sorts_key_lists exampleSerialize ⟨0, 2⟩ ⟨1, 2⟩
    [[3], [1], [2]] (by decide) (by decide)
  ⟨by decide, by decide, h.choose, h.choose_spec.1, h.choose_spec.2.1⟩

/-- C12 as stated fails: the key list `[[2], [1]]` is `[[1], [2]]` after the call (the
remote list `[[3]]` is stored apart from it). -/
theorem getLogicalKeyBytes_reorders_counterexample :
    KeySlice.read ⟨0, 2⟩ ([[2], [1], [3]] : List (List Byte)) = [[2], [1]] ∧
      getLogicalKeyBytes_keysAfter exampleSerialize [[2], [1]] = .ok [[1], [2]] ∧
      CreateFingerprint_memAfter exampleSerialize ⟨0, 2⟩ ⟨2, 1⟩ [[2], [1], [3]] =
        .ok [[1], [2], [3]] ∧
      KeySlice.read ⟨0, 2⟩ ([[1], [2], [3]] : List (List Byte)) = [[1], [2]] ∧
      ([[1], [2]] : List (List Byte)) ≠ [[2], [1]] := by
  decide

/-- C13: for raw key buffers of length at least one, `CreateFingerprintSimple` is
`CreateFingerprint` on the bytes of the two strings and, for each party, the one-key list
holding the key built from the buffer without its first byte. -/
theorem CreateFingerprintSimple_forwards {Key : Type} (sha : List Byte → List Byte)
    (Serialize : Key → List Byte) (NewECPublicKey : List Byte → Key)
    (stringBytes : String → List Byte) (version : Int) (loc : String)
    (localKey : List Byte) (remote : String) (remoteKey : List Byte)
    (hl : 1 ≤ localKey.length) (hr : 1 ≤ remoteKey.length) :
    CreateFingerprintSimple sha Serialize NewECPublicKey stringBytes version loc localKey
        remote remoteKey =
      CreateFingerprint sha Serialize version (stringBytes loc)
        [NewECPublicKey (localKey.drop 1)] (stringBytes remote)
        [NewECPublicKey (remoteKey.drop 1)] := by
  cases localKey with
  | nil => simp at hl
  | cons lb lrest =>
    cases remoteKey with
    | nil => simp at hr
    | cons rb rrest =>
      simp only [CreateFingerprintSimple, sliceFrom1, bind, Except.bind, List.drop_succ_cons,
        List.drop_zero]

/-- C13, instantiated at two two-byte buffers. -/
theorem CreateFingerprintSimple_forwards_witness :
    CreateFingerprintSimple exampleHash exampleSerialize exampleNewKey exampleStringBytes 0
        "a" [5, 1] "b" [5, 2] =
      CreateFingerprint exampleHash exampleSerialize 0 [97] [[1]] [98] [[2]] :=
  CreateFingerprintSimple_forwards exampleHash exampleSerialize exampleNewKey
    exampleStringBytes 0 "a" [5, 1] "b" [5, 2] (by decide) (by decide)

/-- C14: with a hash whose output always has 64 bytes and an iteration count of at least
one (5200 in particular), `getFingerprint` returns a digest of exactly 64 bytes; on it
`getDisplayStringFor` returns its six chunks and `byteArray5ToLong` returns a value at
every offset up to 25, so no index is out of range. -/
theorem getFingerprint_length {Key : Type} (sha : List Byte → List Byte)
    (Serialize : Key → List Byte) (iterations : Int) (stableIdentifier : List Byte)
    (identityKeys : List Key)
    (hsha : ∀ x, (sha x).length = 64) (hn : 1 ≤ iterations) :
    ∃ digest : List Byte,
      getFingerprint sha Serialize iterations stableIdentifier identityKeys = .ok digest ∧
      digest.length = 64 ∧
      (∃ blocks, getDisplayStringFor digest = .ok blocks) ∧
      ∀ offset, offset ≤ 25 → ∃ a, byteArray5ToLong digest offset = .ok a := by
  refine ⟨_, getFingerprint_eq _ _ _ _ _, repeatedHashing_length sha hsha _ _ _ hn, ?_, ?_⟩
  · exact ⟨_, getDisplayStringFor_ok _ (by rw [repeatedHashing_length sha hsha _ _ _ hn]; decide)⟩
  · intro offset ho
    exact ⟨_, byteArray5ToLong_ok _ _ (by rw [repeatedHashing_length sha hsha _ _ _ hn]; omega)⟩

/-- C14, instantiated at the iteration count 5200. -/
theorem getFingerprint_length_witness :
    ∃ digest : List Byte,
      getFingerprint exampleHash exampleSerialize ITERATIONS [1] [[1]] = .ok digest ∧
      digest.length = 64 :=
  have h := getFingerprint_length exampleHash exampleSerialize ITERATIONS [1] [[1]]
    exampleHash_length (by decide)
  ⟨h.choose, h.choose_spec.1, h.choose_spec.2.1⟩

/-- C15: for in-range indices `i` and `j`, `Less(i, j)` returns, and returns true exactly
when the serialization of `b[i]` is strictly smaller than that of `b[j]` in
lexicographic unsigned-byte order; `bytes.Compare` only yields `-1`, `0` or `1`, and
`Less` never ends in the `log.Panic` branch, whatever the indices. -/
theorem Less_spec {Key : Type} (Serialize : Key → List Byte) (b : List Key) (i j : Nat)
    (hi : i < b.length) (hj : j < b.length) :
    (∃ r : Bool, sortByteArrays.Less Serialize b i j = .ok r ∧
        (r = true ↔ lexLt (Serialize b[i]) (Serialize b[j]))) ∧
      (∀ x y : List Byte,
        bytesCompare x y = -1 ∨ bytesCompare x y = 0 ∨ bytesCompare x y = 1) ∧
      (∀ i' j' : Nat, sortByteArrays.Less Serialize b i' j' ≠ .error .logPanic) := by
  refine ⟨⟨lessKey Serialize b[i] b[j], ?_, lessKey_iff _ _ _⟩, bytesCompare_range,
    Less_ne_logPanic Serialize b⟩
  exact Less_of_getElem? Serialize b i j _ _ (List.getElem?_eq_getElem hi)
    (List.getElem?_eq_getElem hj)

/-- C15, instantiated at a list of two keys. -/
theorem Less_spec_witness :
    sortByteArrays.Less exampleSerialize [[1, 2], [1, 3]] 0 1 = .ok true ∧
      sortByteArrays.Less exampleSerialize [[1, 2], [1, 3]] 1 0 = .ok false ∧
      sortByteArrays.Less exampleSerialize [[1, 2], [1, 3]] 1 0 ≠ .error .logPanic :=
  ⟨by decide, by decide,
    (Less_spec exampleSerialize [[1, 2], [1, 3]] 0 1 (by decide) (by decide)).2.2 1 0⟩

/-- C16: `compareFingerprintBlocks` is a total function (it returns a value or a panic on
every pair of sequences); a call on two sequences with the same first block is the call
on the two tails; and the number of calls made is at least 1 and at most the length of
the first sequence plus one, hence at most 7 on two six-chunk sequences. -/
theorem compareFingerprintBlocks_terminates (l r : List String) (s : String)
    (localFingerprint remoteFingerprint : List Byte) :
    (∃ result, compareFingerprintBlocks l r = result) ∧
      compareFingerprintBlocks (s :: l) (s :: r) = compareFingerprintBlocks l r ∧
      1 ≤ compareFingerprintBlocksCalls l r ∧
      compareFingerprintBlocksCalls l r ≤ l.length + 1 ∧
      compareFingerprintBlocksCalls (chunksOf localFingerprint) (chunksOf remoteFingerprint)
        ≤ 7 := by
  refine ⟨⟨_, rfl⟩, compareFingerprintBlocks_cons_same s l r,
    (compareFingerprintBlocksCalls_le l r).1, (compareFingerprintBlocksCalls_le l r).2, ?_⟩
  have h := (compareFingerprintBlocksCalls_le (chunksOf localFingerprint)
    (chunksOf remoteFingerprint)).2
  rw [chunksOf_length] at h
  exact h

/-- C18: on two block sequences of the same length that differ, `compareFingerprintBlocks`
returns 0; and for two digests whose six-chunk sequences differ,
`createDisplayableFingerprint` returns the local chunks followed by the remote chunks. -/
theorem compareFingerprintBlocks_differing_eq_zero (l r : List String)
    (hlen : l.length = r.length) (hne : l ≠ r) :
    compareFingerprintBlocks l r = .ok 0 ∧
      ∀ localFingerprint remoteFingerprint : List Byte,
        getDisplayStringFor localFingerprint = .ok l →
        getDisplayStringFor remoteFingerprint = .ok r →
        createDisplayableFingerprint localFingerprint remoteFingerprint = .ok (l ++ r) := by
  constructor
  · rw [compareFingerprintBlocks_of_length_eq l r hlen, if_neg hne]
  · intro dl dr hL hR
    rw [getDisplayStringFor_eq] at hL hR
    split at hL
    next hl =>
      split at hR
      next hr =>
        injection hL with hL
        injection hR with hR
        subst hL hR
        rw [createDisplayableFingerprint_eq, if_pos ⟨hl, hr, hne⟩]
      next => cases hR
    next => cases hL

/-- C18, instantiated: the comparison of two differing sequences is 0 in both directions,
and each of the two digests, taken as the local one, comes first. -/
theorem compareFingerprintBlocks_differing_eq_zero_witness :
    compareFingerprintBlocks ["58255", "23415", "79821", "80278", "96295", "36899"]
        ["83138", "34715", "57177", "82768", "38329", "44406"] = .ok 0 ∧
      createDisplayableFingerprint digestA digestB =
        .ok (["58255", "23415", "79821", "80278", "96295", "36899"] ++
          ["83138", "34715", "57177", "82768", "38329", "44406"]) :=
  have h := compareFingerprintBlocks_differing_eq_zero
    ["58255", "23415", "79821", "80278", "96295", "36899"]
    ["83138", "34715", "57177", "82768", "38329", "44406"] (by decide) (by decide)
  ⟨h.1, h.2 digestA digestB (by decide) (by decide)⟩

/-- C19: `compareFingerprintBlocks` ends in an index-out-of-range panic exactly when the two
sequences are equal (same length, equal at every position; two empty sequences
included); on every other pair it returns an integer: the difference of the lengths
when they differ, otherwise 0. -/
theorem compareFingerprintBlocks_panics_iff (l r : List String) :
    (compareFingerprintBlocks l r = .error .indexOutOfRange ↔ l = r) ∧
      compareFingerprintBlocks [] [] = .error .indexOutOfRange ∧
      (l ≠ r → ∃ n : Int, compareFingerprintBlocks l r = .ok n) ∧
      (∀ e, compareFingerprintBlocks l r = .error e → e = .indexOutOfRange) := by
  by_cases hlen : l.length = r.length
  · rw [compareFingerprintBlocks_of_length_eq l r hlen]
    by_cases h : l = r
    · simp [h, compareFingerprintBlocks]
    · simp [h, compareFingerprintBlocks]
  · have hne : l ≠ r := fun h => hlen (by rw [h])
    rw [compareFingerprintBlocks_of_length_ne l r hlen]
    simp [hne, compareFingerprintBlocks]

/-- C19, instantiated at two sequences of different lengths. -/
theorem compareFingerprintBlocks_panics_iff_witness :
    ∃ n : Int, compareFingerprintBlocks ["00001", "00002"] ["00001"] = .ok n :=
  (compareFingerprintBlocks_panics_iff ["00001", "00002"] ["00001"]).2.2.1 (by decide)

theorem CreateFingerprintSimpleT_eq {Key : Type} (sha : List Byte → List Byte)
    (Serialize : Key → List Byte) (NewECPublicKey : List Byte → Key)
    (stringBytes : String → List Byte) (version : Int) (loc : String)
    (localKey : List Byte) (remote : String) (remoteKey : List Byte) :
    CreateFingerprintSimpleT sha Serialize NewECPublicKey stringBytes version loc localKey
        remote remoteKey =
      ⟨if localKey = [] ∨ remoteKey = [] then 0 else 2 * (1 + 4 * 5200),
        CreateFingerprintSimple sha Serialize NewECPublicKey stringBytes version loc localKey
          remote remoteKey⟩ := by
  cases localKey with
  | nil => rfl
  | cons lb lrest =>
    cases remoteKey with
    | nil => rfl
    | cons rb rrest =>
      simp only [CreateFingerprintSimpleT, CreateFingerprintSimple, sliceFrom1,
        Traced.bind_eq, Traced.ofExcept, Traced.bind_mk_ok, CreateFingerprintT_eq,
        bind, Except.bind]
      simp

/-- C20: if the local or the remote raw key buffer is empty, `CreateFingerprintSimple`
ends in a slice-bounds panic and returns no fingerprint, and it has made no call on the
hash package by then (no `sha512.New`, `Write`, `Sum` or `Reset`). The counted version
has the outcome of `CreateFingerprintSimple` on every input, and on two non-empty
buffers it makes `2 * (1 + 4 * 5200)` calls on the hash package. -/
theorem CreateFingerprintSimple_empty_buffer {Key : Type} (sha : List Byte → List Byte)
    (Serialize : Key → List Byte) (NewECPublicKey : List Byte → Key)
    (stringBytes : String → List Byte) (version : Int) (loc : String)
    (localKey : List Byte) (remote : String) (remoteKey : List Byte)
    (h : localKey.length = 0 ∨ remoteKey.length = 0) :
    CreateFingerprintSimple sha Serialize NewECPublicKey stringBytes version loc localKey
        remote remoteKey = .error .sliceBounds ∧
      sliceFrom1 [] = .error .sliceBounds ∧
      CreateFingerprintSimpleT sha Serialize NewECPublicKey stringBytes version loc localKey
        remote remoteKey = ⟨0, .error .sliceBounds⟩ ∧
      (∀ (lk rk : List Byte),
        (CreateFingerprintSimpleT sha Serialize NewECPublicKey stringBytes version loc lk
          remote rk).outcome =
        CreateFingerprintSimple sha Serialize NewECPublicKey stringBytes version loc lk
          remote rk) ∧
      (∀ (lb rb : Byte) (lrest rrest : List Byte),
        (CreateFingerprintSimpleT sha Serialize NewECPublicKey stringBytes version loc
          (lb :: lrest) remote (rb :: rrest)).hashCalls = 2 * (1 + 4 * 5200)) := by
  have hres : CreateFingerprintSimple sha Serialize NewECPublicKey stringBytes version loc
      localKey remote remoteKey = .error .sliceBounds := by
    cases localKey with
    | nil => simp only [CreateFingerprintSimple, sliceFrom1, bind, Except.bind]
    | cons lb lrest =>
      cases remoteKey with
      | nil => simp only [CreateFingerprintSimple, sliceFrom1, bind, Except.bind]
      | cons rb rrest => simp at h
  have hempty : localKey = [] ∨ remoteKey = [] := by
    rcases h with h | h
    · exact Or.inl (List.length_eq_zero.mp h)
    · exact Or.inr (List.length_eq_zero.mp h)
  refine ⟨hres, rfl, ?_, ?_, ?_⟩
  · rw [CreateFingerprintSimpleT_eq, if_pos hempty, hres]
  · intro lk rk
    rw [CreateFingerprintSimpleT_eq]
  · intro lb rb lrest rrest
    rw [CreateFingerprintSimpleT_eq]
    simp

/-- C20, instantiated: an empty local buffer, and an empty remote buffer against a local
buffer of 33 bytes; in both cases the panic comes with no call on the hash package. -/
theorem CreateFingerprintSimple_empty_buffer_witness :
    CreateFingerprintSimpleT exampleHash exampleSerialize exampleNewKey exampleStringBytes 0
        "a" [] "b" (5 :: List.replicate 32 2) = ⟨0, .error .sliceBounds⟩ ∧
      CreateFingerprintSimpleT exampleHash exampleSerialize exampleNewKey exampleStringBytes 0
        "a" (5 :: List.replicate 32 1) "b" [] = ⟨0, .error .sliceBounds⟩ ∧
      CreateFingerprintSimple exampleHash exampleSerialize exampleNewKey exampleStringBytes 0
        "a" [] "b" (5 :: List.replicate 32 2) = .error .sliceBounds :=
  ⟨(CreateFingerprintSimple_empty_buffer exampleHash exampleSerialize exampleNewKey
      exampleStringBytes 0 "a" [] "b" (5 :: List.replicate 32 2) (Or.inl rfl)).2.2.1,
    (CreateFingerprintSimple_empty_buffer exampleHash exampleSerialize exampleNewKey
      exampleStringBytes 0 "a" (5 :: List.replicate 32 1) "b" [] (Or.inr rfl)).2.2.1,
    (CreateFingerprintSimple_empty_buffer exampleHash exampleSerialize exampleNewKey
      exampleStringBytes 0 "a" [] "b" (5 :: List.replicate 32 2) (Or.inl rfl)).1⟩

end Fingerprint

namespace Textsecure

/-! ## The certificate bootstrap -/

theorem setupCA_load_of_no_cert {Cert Err : Type} (certsFromPEM : List (Fin 256) → List Cert)
    (pem : List (Fin 256)) (st : State Cert Err) (h : certsFromPEM pem = []) :
    setupCA_load certsFromPEM pem st =
      { rootCA := some NewCertPool, log := st.log ++ [LogEntry.cannotLoadPEM] } := by
  simp [setupCA_load, CertPool.AppendCertsFromPEM, h, NewCertPool]

/-- C17 (as amended): when the configured file exists and reading it fails, `setupCA` logs
the error and leaves `rootCA` as it was. When the PEM data in use (the file's content,
or the embedded default when no file is configured or it does not exist) yields no
certificate, `setupCA` logs `Cannot load PEM` and leaves `rootCA` set to a new, empty
pool, whatever it was before. -/
theorem setupCA_on_failure {Cert Err : Type} (stringBytes : String → List (Fin 256))
    (configRootCA : String) (pathExists : String → Bool)
    (ReadFile : String → Except Err (List (Fin 256)))
    (certsFromPEM : List (Fin 256) → List Cert) (st : State Cert Err) :
    (∀ err, configRootCA ≠ "" → pathExists configRootCA = true →
        ReadFile configRootCA = .error err →
        setupCA stringBytes configRootCA pathExists ReadFile certsFromPEM st =
          { rootCA := st.rootCA, log := st.log ++ [LogEntry.readError err] }) ∧
      (∀ b, configRootCA ≠ "" → pathExists configRootCA = true →
        ReadFile configRootCA = .ok b → certsFromPEM b = [] →
        setupCA stringBytes configRootCA pathExists ReadFile certsFromPEM st =
          { rootCA := some NewCertPool, log := st.log ++ [LogEntry.cannotLoadPEM] }) ∧
      (¬ (configRootCA ≠ "" ∧ pathExists configRootCA = true) →
        certsFromPEM (stringBytes rootPEM) = [] →
        setupCA stringBytes configRootCA pathExists ReadFile certsFromPEM st =
          { rootCA := some NewCertPool, log := st.log ++ [LogEntry.cannotLoadPEM] }) := by
  refine ⟨?_, ?_, ?_⟩
  · intro err h1 h2 h3
    unfold setupCA
    rw [if_pos ⟨h1, h2⟩, h3]
  · intro b h1 h2 h3 h4
    unfold setupCA
    rw [if_pos ⟨h1, h2⟩, h3]
    exact setupCA_load_of_no_cert certsFromPEM b st h4
  · intro h1 h2
    unfold setupCA
    rw [if_neg h1]
    exact setupCA_load_of_no_cert certsFromPEM _ st h2

/-- C17, instantiated: a prior pool holding certificate `7`; a failed read of the file
`ca.pem` keeps it, and a file without any certificate replaces it by the empty pool. -/
theorem setupCA_on_failure_witness :
    setupCA Fingerprint.exampleStringBytes "ca.pem" examplePathExists exampleReadFails
        exampleNoCerts exampleState =
        { rootCA := some ⟨[7]⟩, log := [LogEntry.readError 2] } ∧
      setupCA Fingerprint.exampleStringBytes "ca.pem" examplePathExists exampleReadOk
        exampleNoCerts exampleState =
        { rootCA := some NewCertPool, log := [LogEntry.cannotLoadPEM] } :=
  ⟨(setupCA_on_failure Fingerprint.exampleStringBytes "ca.pem" examplePathExists
      exampleReadFails exampleNoCerts exampleState).1 2 (by decide) rfl rfl,
    (setupCA_on_failure Fingerprint.exampleStringBytes "ca.pem" examplePathExists
      exampleReadOk exampleNoCerts exampleState).2.1 [1] (by decide) rfl rfl rfl⟩

/-- C17 as stated fails: the configured file `ca.pem` exists and is read, but its one byte
holds no certificate; a prior pool holding certificate `7` is replaced by the empty
pool and `Cannot load PEM` is logged. -/
theorem setupCA_file_without_certificate_counterexample :
    exampleState.rootCA = some ⟨[7]⟩ ∧
      exampleReadOk "ca.pem" = .ok [1] ∧
      exampleCertsFromPEM [1] = [] ∧
      (setupCA Fingerprint.exampleStringBytes "ca.pem" examplePathExists exampleReadOk
        exampleCertsFromPEM exampleState).rootCA = some ⟨[]⟩ ∧
      (setupCA Fingerprint.exampleStringBytes "ca.pem" examplePathExists exampleReadOk
        exampleCertsFromPEM exampleState).log = [LogEntry.cannotLoadPEM] ∧
      (setupCA Fingerprint.exampleStringBytes "ca.pem" examplePathExists exampleReadOk
        exampleCertsFromPEM exampleState).rootCA ≠ exampleState.rootCA := by
  decide

end Textsecure
